import Mathlib

/-!
Verification of the incremental observation-history logic of
`src/generate_maps.py` (麦生育マップ automatic update script).

The script's verifiable core is embedded shallowly:

* date handling (`strptime(idx[:8], "%Y%m%d")` + `strftime("%Y-%m-%d")`)
  becomes a reformatting function on the first eight characters;
* the Python dicts `date_to_index` / `pixel_counts` become insertion-ordered
  association lists with Python's update-in-place-or-append semantics;
* `sorted(new_dates)` becomes an insertion sort under code-point
  lexicographic string comparison, which is exactly Python's `<` on `str`;
* the single run of the script becomes a function from its inputs (the
  persisted history, the candidate image records, the field polygons, and a
  sampling oracle standing for the Earth Engine `sample(...).getInfo()`
  calls) to an exit code plus the ordered list of file writes it performs.

Rationals stand in for the floats flowing through the color thresholds; at
every compared literal (0.2, 0.4, ..., 3.0 and the probe values) the float
comparison in the source and the rational comparison here agree.
-/

set_option maxHeartbeats 1000000

/-! ### Characters, digits and calendar-date strings -/

/-- Decidable digit test, `48 ≤ code point ≤ 57` (same as `Char.isDigit`). -/
def isDigitCh (c : Char) : Bool := 48 ≤ c.toNat && c.toNat ≤ 57

/-- Big-endian numeric value of a list of digit characters. -/
def digitsVal : List Char → Nat
  | [] => 0
  | c :: cs => (c.toNat - 48) * 10 ^ cs.length + digitsVal cs

/-- Chronological key of an ISO date string `YYYY-MM-DD`: the number
`YYYYMMDD` read from its digits.  For ISO dates, comparing these keys is
comparing calendar dates. -/
def dateVal (s : String) : Nat := digitsVal (s.data.filter isDigitCh)

/-- `s` has the shape `YYYY-MM-DD`: ten characters, digits everywhere except
dashes at positions 4 and 7. -/
def isIsoDate (s : String) : Bool :=
  match s.data with
  | [a, b, c, d, e, f, g, h, i, j] =>
    isDigitCh a && isDigitCh b && isDigitCh c && isDigitCh d && (e == '-') &&
    isDigitCh f && isDigitCh g && (h == '-') && isDigitCh i && isDigitCh j
  | _ => false

/-- A `system:index` value the script can process: at least eight characters,
the first eight of which are digits.  On such indices
`strptime(idx[:8], "%Y%m%d")` succeeds (bar calendar-range checks, which do
not change the formatted result) and the script does not abort. -/
def ValidIdx (i : String) : Prop :=
  8 ≤ i.data.length ∧ ∀ c ∈ i.data.take 8, isDigitCh c = true

instance (i : String) : Decidable (ValidIdx i) := by
  unfold ValidIdx; infer_instance

/-- Lines 122–123 of the source: `strptime(idx[:8], "%Y%m%d")` followed by
`strftime("%Y-%m-%d")`, i.e. the first eight characters reformatted with
dashes inserted after the year and the month. -/
def dateOf (idx : String) : String :=
  let cs := idx.data.take 8
  String.mk (cs.take 4 ++ '-' :: ((cs.drop 4).take 2 ++ '-' :: cs.drop 6))

/-- Code-point lexicographic comparison of character lists; `charListLe u v`
is Python's `u <= v` on the corresponding strings. -/
def charListLe : List Char → List Char → Bool
  | [], _ => true
  | _ :: _, [] => false
  | a :: as, b :: bs =>
    if a < b then true
    else if b < a then false
    else charListLe as bs

/-- Python's `<=` on strings: code-point lexicographic order. -/
abbrev StrLe (a b : String) : Prop := charListLe a.data b.data = true

/-! ### Order facts about `charListLe` -/

theorem charListLe_refl (u : List Char) : charListLe u u = true := by
  induction u with
  | nil => rfl
  | cons a as ih => simp [charListLe, lt_irrefl, ih]

theorem charListLe_total (u v : List Char) :
    charListLe u v = true ∨ charListLe v u = true := by
  induction u generalizing v with
  | nil => left; rfl
  | cons a as ih =>
    cases v with
    | nil => right; rfl
    | cons b bs =>
      rcases lt_trichotomy a b with hab | hab | hab
      · left; simp [charListLe, hab]
      · subst hab
        rcases ih bs with h | h
        · left; simp [charListLe, lt_irrefl, h]
        · right; simp [charListLe, lt_irrefl, h]
      · right; simp [charListLe, hab]

theorem charListLe_antisymm {u v : List Char}
    (h1 : charListLe u v = true) (h2 : charListLe v u = true) : u = v := by
  induction u generalizing v with
  | nil =>
    cases v with
    | nil => rfl
    | cons b bs => simp [charListLe] at h2
  | cons a as ih =>
    cases v with
    | nil => simp [charListLe] at h1
    | cons b bs =>
      rcases lt_trichotomy a b with hab | hab | hab
      · simp [charListLe, hab, asymm hab] at h2
      · subst hab
        simp [charListLe, lt_irrefl] at h1 h2
        rw [ih h1 h2]
      · simp [charListLe, hab, asymm hab] at h1

theorem charListLe_trans {u v w : List Char}
    (h1 : charListLe u v = true) (h2 : charListLe v w = true) :
    charListLe u w = true := by
  induction u generalizing v w with
  | nil => rfl
  | cons a as ih =>
    cases v with
    | nil => simp [charListLe] at h1
    | cons b bs =>
      cases w with
      | nil => simp [charListLe] at h2
      | cons c cs =>
        rcases lt_trichotomy a b with hab | hab | hab
        · rcases lt_trichotomy b c with hbc | hbc | hbc
          · simp [charListLe, lt_trans hab hbc]
          · subst hbc; simp [charListLe, hab]
          · rcases lt_trichotomy a c with hac | hac | hac
            · simp [charListLe, hac]
            · subst hac; simp [charListLe, hbc, asymm hbc] at h2
            · simp [charListLe, hbc, asymm hbc] at h2
        · subst hab
          rcases lt_trichotomy a c with hac | hac | hac
          · simp [charListLe, hac]
          · subst hac
            simp [charListLe, lt_irrefl] at h1 h2 ⊢
            exact ih h1 h2
          · simp [charListLe, hac, asymm hac] at h2
        · simp [charListLe, hab, asymm hab] at h1

instance : IsTrans String StrLe := ⟨fun _ _ _ => charListLe_trans⟩

instance : IsTotal String StrLe := ⟨fun a b => charListLe_total a.data b.data⟩

instance : IsAntisymm String StrLe :=
  ⟨fun _ _ h1 h2 => String.ext (charListLe_antisymm h1 h2)⟩

instance : IsRefl String StrLe := ⟨fun a => charListLe_refl a.data⟩

/-! ### Lexicographic order on same-pattern strings is chronological order -/

/-- Two character lists with the same "pattern": componentwise, either both
characters are digits, or they are the same non-digit character.  Any two
`YYYY-MM-DD` strings are related this way. -/
inductive SamePat : List Char → List Char → Prop where
  | nil : SamePat [] []
  | digit {a b : Char} {u v : List Char} :
      isDigitCh a = true → isDigitCh b = true → SamePat u v →
      SamePat (a :: u) (b :: v)
  | same {c : Char} {u v : List Char} :
      isDigitCh c = false → SamePat u v → SamePat (c :: u) (c :: v)

theorem digitsVal_lt_pow {l : List Char}
    (h : ∀ c ∈ l, isDigitCh c = true) : digitsVal l < 10 ^ l.length := by
  induction l with
  | nil => simp [digitsVal]
  | cons c cs ih =>
    have hc : isDigitCh c = true := h c (List.mem_cons_self _ _)
    have hcs := ih fun x hx => h x (List.mem_cons_of_mem _ hx)
    have hb : c.toNat ≤ 57 := by
      simp [isDigitCh] at hc; exact hc.2
    have hd : c.toNat - 48 ≤ 9 := by omega
    calc digitsVal (c :: cs)
        = (c.toNat - 48) * 10 ^ cs.length + digitsVal cs := rfl
      _ < (c.toNat - 48) * 10 ^ cs.length + 10 ^ cs.length := by omega
      _ = (c.toNat - 48 + 1) * 10 ^ cs.length := by ring
      _ ≤ 10 * 10 ^ cs.length := by
          exact Nat.mul_le_mul_right _ (by omega)
      _ = 10 ^ (c :: cs).length := by
          simp [List.length_cons, pow_succ, Nat.mul_comm]

theorem SamePat.filter_length {u v : List Char} (h : SamePat u v) :
    (u.filter isDigitCh).length = (v.filter isDigitCh).length := by
  induction h with
  | nil => rfl
  | digit ha hb _ ih => simp [List.filter_cons, ha, hb, ih]
  | same hc _ ih => simp [List.filter_cons, hc, ih]

theorem samePat_le_digitsVal {u v : List Char} (hp : SamePat u v)
    (hle : charListLe u v = true) :
    digitsVal (u.filter isDigitCh) ≤ digitsVal (v.filter isDigitCh) := by
  induction hp with
  | nil => simp
  | @digit a b u' v' ha hb hp ih =>
    have hlen : (u'.filter isDigitCh).length = (v'.filter isDigitCh).length :=
      hp.filter_length
    rcases lt_trichotomy a b with hab | hab | hab
    · -- strictly smaller leading digit: numeric value strictly smaller
      have haN : a.toNat < b.toNat := by
        rw [Char.lt_iff_val_lt_val] at hab; exact hab
      have ha48 : 48 ≤ a.toNat := by simp [isDigitCh] at ha; exact ha.1
      have hb48 : 48 ≤ b.toNat := by simp [isDigitCh] at hb; exact hb.1
      have hub : digitsVal (u'.filter isDigitCh) < 10 ^ (u'.filter isDigitCh).length :=
        digitsVal_lt_pow fun c hc => List.of_mem_filter hc
      simp only [List.filter_cons, ha, hb, digitsVal]
      rw [hlen]
      refine le_of_lt ?_
      calc (a.toNat - 48) * 10 ^ (v'.filter isDigitCh).length + digitsVal (u'.filter isDigitCh)
          < (a.toNat - 48) * 10 ^ (v'.filter isDigitCh).length + 10 ^ (v'.filter isDigitCh).length := by
            rw [← hlen]; omega
        _ = (a.toNat - 48 + 1) * 10 ^ (v'.filter isDigitCh).length := by ring
        _ ≤ (b.toNat - 48) * 10 ^ (v'.filter isDigitCh).length := by
            exact Nat.mul_le_mul_right _ (by omega)
        _ ≤ (b.toNat - 48) * 10 ^ (v'.filter isDigitCh).length + digitsVal (v'.filter isDigitCh) := by omega
    · subst hab
      simp only [charListLe, lt_irrefl, if_false] at hle
      have := ih hle
      simp only [List.filter_cons, ha, hb, digitsVal]
      rw [hlen]; omega
    · simp [charListLe, hab, asymm hab] at hle
  | @same c u' v' hc hp ih =>
    simp only [charListLe, lt_irrefl, if_false] at hle
    simpa [List.filter_cons, hc] using ih hle

theorem isIsoDate_shape {s : String} (h : isIsoDate s = true) :
    ∃ c1 c2 c3 c4 c5 c6 c7 c8,
      s.data = [c1, c2, c3, c4, '-', c5, c6, '-', c7, c8] ∧
      isDigitCh c1 = true ∧ isDigitCh c2 = true ∧ isDigitCh c3 = true ∧
      isDigitCh c4 = true ∧ isDigitCh c5 = true ∧ isDigitCh c6 = true ∧
      isDigitCh c7 = true ∧ isDigitCh c8 = true := by
  unfold isIsoDate at h
  rcases hs : s.data with _ | ⟨a1, _ | ⟨a2, _ | ⟨a3, _ | ⟨a4, _ | ⟨a5, _ | ⟨a6, _ | ⟨a7, _ | ⟨a8, _ | ⟨a9, _ | ⟨a10, _ | ⟨a11, arest⟩⟩⟩⟩⟩⟩⟩⟩⟩⟩⟩ <;>
    rw [hs] at h
  any_goals exact Bool.noConfusion h
  simp only [Bool.and_eq_true, beq_iff_eq, and_assoc] at h
  obtain ⟨h1, h2, h3, h4, h5, h6, h7, h8, h9, h10⟩ := h
  subst h5; subst h8
  exact ⟨a1, a2, a3, a4, a6, a7, a9, a10, rfl, h1, h2, h3, h4, h6, h7, h9, h10⟩

theorem isIsoDate_samePat {a b : String}
    (ha : isIsoDate a = true) (hb : isIsoDate b = true) :
    SamePat a.data b.data := by
  obtain ⟨a1, a2, a3, a4, a5, a6, a7, a8, hla, h1, h2, h3, h4, h5, h6, h7, h8⟩ :=
    isIsoDate_shape ha
  obtain ⟨b1, b2, b3, b4, b5, b6, b7, b8, hlb, g1, g2, g3, g4, g5, g6, g7, g8⟩ :=
    isIsoDate_shape hb
  rw [hla, hlb]
  have hdash : isDigitCh '-' = false := by decide
  exact .digit h1 g1 (.digit h2 g2 (.digit h3 g3 (.digit h4 g4 (.same hdash
    (.digit h5 g5 (.digit h6 g6 (.same hdash
      (.digit h7 g7 (.digit h8 g8 .nil)))))))))

/-- On well-formed ISO date strings, the string order used by Python's
`sorted` agrees with chronological order. -/
theorem dateVal_mono {a b : String}
    (ha : isIsoDate a = true) (hb : isIsoDate b = true)
    (hle : StrLe a b) : dateVal a ≤ dateVal b :=
  samePat_le_digitsVal (isIsoDate_samePat ha hb) hle

/-- A valid `system:index` yields a well-formed `YYYY-MM-DD` string. -/
theorem dateOf_isIsoDate {i : String} (h : ValidIdx i) :
    isIsoDate (dateOf i) = true := by
  obtain ⟨hlen, hdig⟩ := h
  rcases hl : i.data with _ | ⟨c1, _ | ⟨c2, _ | ⟨c3, _ | ⟨c4, _ | ⟨c5, _ | ⟨c6, _ | ⟨c7, _ | ⟨c8, rest⟩⟩⟩⟩⟩⟩⟩⟩
  all_goals rw [hl] at hlen hdig
  all_goals simp only [List.length_nil, List.length_cons] at hlen
  all_goals try omega
  have d1 := hdig c1 (by simp)
  have d2 := hdig c2 (by simp)
  have d3 := hdig c3 (by simp)
  have d4 := hdig c4 (by simp)
  have d5 := hdig c5 (by simp)
  have d6 := hdig c6 (by simp)
  have d7 := hdig c7 (by simp)
  have d8 := hdig c8 (by simp)
  unfold dateOf isIsoDate
  rw [hl]
  simp [d1, d2, d3, d4, d5, d6, d7, d8]

/-! ### Data model of the script -/

/-- The persisted observation history (`output/observation_history.json`,
lines 98–109).  Python dicts are insertion-ordered association lists with
unique keys. -/
structure History where
  dates : List String
  date_to_index : List (String × String)
  pixel_counts : List (String × Nat)
deriving DecidableEq

/-- Line 104–108: the empty history created on first run. -/
def emptyHistory : History := ⟨[], [], []⟩

/-- Line 99–101 together with 103–108: a present history file is parsed,
a missing one means first run. -/
def loadHistory (histFile : Option History) : History :=
  histFile.getD emptyHistory

/-- Python dict assignment `d[k] = v`: update the value in place if the key
exists (keeping its position), otherwise append the new pair. -/
def dictInsert {α : Type} (l : List (String × α)) (k : String) (v : α) :
    List (String × α) :=
  if (l.lookup k).isSome then
    l.map fun p => if p.1 = k then (k, v) else p
  else l ++ [(k, v)]

/-- One record of `collection_info['features']` (line 117): its
`properties['system:index']` when that key is present. -/
structure S2Feature where
  sysIndex : Option String
deriving DecidableEq

/-- Lines 117–127: iterate over the candidate records; skip records without
`system:index`; derive the calendar date from the index; if the date is not
yet a key of `history['date_to_index']`, record `date → index` into the
history **in place** and append the date to `new_dates`. -/
def deltaLoop : History → List S2Feature → History × List String
  | h, [] => (h, [])
  | h, c :: cs =>
    match c.sysIndex with
    | Option.none => deltaLoop h cs
    | Option.some idx =>
      let d := dateOf idx
      match h.date_to_index.lookup d with
      | Option.some _ => deltaLoop h cs
      | Option.none =>
        let h' : History :=
          { h with date_to_index := dictInsert h.date_to_index d idx }
        let r := deltaLoop h' cs
        (r.1, d :: r.2)

/-- Python's `sorted` on a list of strings.  Ties are impossible among the
distinct dates produced by `deltaLoop`, so a plain insertion sort under the
code-point order yields exactly `sorted`'s output. -/
def sortedAsc (l : List String) : List String := List.insertionSort StrLe l

/-- Lines 114–129 as one unit: the run's delta computation.  Returns the
(in-place mutated) history together with `new_dates = sorted(new_dates)`. -/
def computeDelta (h : History) (cands : List S2Feature) :
    History × List String :=
  let r := deltaLoop h cands
  (r.1, sortedAsc r.2)

/-! ### Color mapping (lines 148–172) -/

/-- A Python value flowing into the color functions: `None`, `nan`, or an
ordinary float (modelled as a rational; every comparison performed by the
script agrees between the two representations). -/
inductive PyNum where
  | null
  | nan
  | val (q : ℚ)
deriving DecidableEq

/-- Lines 148–159. -/
def get_lai_color : PyNum → String
  | .null => "#808080"
  | .nan => "#808080"
  | .val lai =>
    if lai < 1/2 then "#d73027"
    else if lai < 1 then "#fc8d59"
    else if lai < 2 then "#fee08b"
    else if lai < 3 then "#91cf60"
    else "#1a9850"

/-- Lines 161–172. -/
def get_ndvi_color : PyNum → String
  | .null => "#808080"
  | .nan => "#808080"
  | .val ndvi =>
    if ndvi < 1/5 then "#d73027"
    else if ndvi < 2/5 then "#fc8d59"
    else if ndvi < 3/5 then "#fee08b"
    else if ndvi < 4/5 then "#91cf60"
    else "#1a9850"

/-! ### Overlay building (lines 183–300) -/

/-- One feature of a `sample(...).getInfo()` response.  `geometry` is `none`
when `feature.get('geometry', {})` is falsy, otherwise the `(lon, lat)`
coordinate pair; `properties` is `none` when `feature.get('properties', {})`
is falsy, otherwise the band value `props.get('LAI')` / `props.get('NDVI')`
(`PyNum.null` when that key is absent or holds `None`). -/
structure PixelFeature where
  geometry : Option (ℚ × ℚ)
  properties : Option PyNum
deriving DecidableEq

/-- Outcome of the two sampling calls for one (date, field) pair.  `err`
models an exception raised inside the `try` block (lines 207–285); `ok`
carries each response's `features` list, `none` when the response lacks the
`features` key (line 222). -/
inductive SampleResult where
  | err
  | ok (laiFeatures ndviFeatures : Option (List PixelFeature))
deriving DecidableEq

/-- One element drawn into a folium `FeatureGroup`: a colored pixel
rectangle (lines 243–252 / 269–278, popup and tooltip text omitted) or a
black field-boundary outline (lines 287–292). -/
inductive MapItem where
  | rect (bounds : (ℚ × ℚ) × (ℚ × ℚ)) (color : String)
  | boundary (pts : List (ℚ × ℚ))
deriving DecidableEq

/-- A named per-date layer (`FeatureGroup`, lines 190–191). -/
structure Layer where
  name : String
  shown : Bool
  items : List MapItem
deriving DecidableEq

/-- One entry of `fields_info['features']`: the geometry type, and the outer
ring of the polygon as `(lon, lat)` pairs.  `polygon_uu` and the address
lookup only feed popup text and are not modelled. -/
structure FieldPoly where
  geomType : String
  ring : List (ℚ × ℚ)
deriving DecidableEq

/-- `PIXEL_SCALE / 2 / 111320` (lines 238 and 264). -/
def halfSize : ℚ := 10 / 2 / 111320

/-- Lines 229–252 (and identically 255–278) for one sampled pixel: skip it
when geometry or properties are falsy, otherwise draw a square of side
`2 * halfSize` centered on the pixel, colored through the given scale. -/
def renderPixel (colorOf : PyNum → String) (p : PixelFeature) :
    Option MapItem :=
  match p.geometry, p.properties with
  | Option.some (lon, lat), Option.some v =>
    Option.some (.rect ((lat - halfSize, lon - halfSize),
      (lat + halfSize, lon + halfSize)) (colorOf v))
  | _, _ => Option.none

/-- Lines 195–285: the loop over `fields_info['features']` for one date.
The accumulator carries the LAI items, the NDVI items and `date_pixels`.
Non-`Polygon` features are skipped (line 196); an exception inside the
`try` (`SampleResult.err`) skips the field (lines 283–285); a response
without `features` skips the field (lines 222–224); otherwise
`pixel_count = len(sample_lai['features'])` is added (lines 226, 280) and
both bands' pixels are rendered. -/
def fieldsLoop (samp : Nat → SampleResult) :
    Nat → List FieldPoly → List MapItem × List MapItem × Nat →
    List MapItem × List MapItem × Nat
  | _, [], acc => acc
  | j, f :: fs, acc =>
    if f.geomType = "Polygon" then
      match samp j with
      | .err => fieldsLoop samp (j + 1) fs acc
      | .ok laiS ndviS =>
        match laiS, ndviS with
        | Option.some laiF, Option.some ndviF =>
          fieldsLoop samp (j + 1) fs
            (acc.1 ++ laiF.filterMap (renderPixel get_lai_color),
             acc.2.1 ++ ndviF.filterMap (renderPixel get_ndvi_color),
             acc.2.2 + laiF.length)
        | _, _ => fieldsLoop samp (j + 1) fs acc
    else fieldsLoop samp (j + 1) fs acc

/-- Lines 287–292: after the field loop, the boundary of every `Polygon`
feature is appended to the layer, with each `(lon, lat)` pair swapped to
`(lat, lon)`. -/
def boundaryItems (fields : List FieldPoly) : List MapItem :=
  fields.filterMap fun f =>
    if f.geomType = "Polygon" then
      Option.some (.boundary (f.ring.map fun p => (p.2, p.1)))
    else Option.none

/-- Lines 183–300 for one date: build the two layers (only the most recent
date's layers are shown by default, line 190–191) and the date's pixel
count. -/
def processDate (fields : List FieldPoly) (samp : Nat → SampleResult)
    (d lastD : String) : Layer × Layer × Nat :=
  let r := fieldsLoop samp 0 fields ([], [], 0)
  let bs := boundaryItems fields
  (⟨"LAI_" ++ d, d = lastD, r.1 ++ bs⟩,
   ⟨"NDVI_" ++ d, d = lastD, r.2.1 ++ bs⟩,
   r.2.2)

/-- The loop over `new_dates` (lines 183–300): per date, build the layers,
append the date to `history['dates']` and set
`history['pixel_counts'][date] = date_pixels` (lines 297–298). -/
def processDates (fields : List FieldPoly)
    (sample : String → Nat → SampleResult) (lastD : String) :
    History → List String → History × List Layer × List Layer
  | h, [] => (h, [], [])
  | h, d :: ds =>
    let r := processDate fields (sample d) d lastD
    let h' : History :=
      { h with dates := h.dates ++ [d],
               pixel_counts := dictInsert h.pixel_counts d r.2.2 }
    let rest := processDates fields sample lastD h' ds
    (rest.1, r.1 :: rest.2.1, r.2.1 :: rest.2.2)

/-- A file write performed at the end of a run, in program order:
the two map documents (lines 406–407), the history file (lines 413–414),
and the last-processed marker (lines 418–419). -/
inductive FileEvent where
  | writeLaiMap (layers : List Layer)
  | writeNdviMap (layers : List Layer)
  | writeHistoryFile (h : History)
  | writeMarker (s : String)
deriving DecidableEq

/-- Result of one invocation: the exit code and the ordered file writes. -/
structure RunResult where
  exitCode : Nat
  trace : List FileEvent
deriving DecidableEq

/-- One full run of the script after Earth Engine setup, as a function of
its inputs: the persisted history file (if any), the candidate image
records, the field polygons, and a sampling oracle standing for the
external service (keyed by date and field position; within one run the
date determines `target_index`, line 186).

Control flow: `new_image_count == 0` exits 0 before any write (lines
91–93); the history is loaded (lines 98–109); the delta is computed (lines
114–129); an empty delta exits 0 before any write (lines 132–134);
otherwise every new date is processed and the maps, the history and the
marker `new_dates[-1]` are written, in that order (lines 400–420). -/
def runScript (histFile : Option History) (cands : List S2Feature)
    (fields : List FieldPoly) (sample : String → Nat → SampleResult) :
    RunResult :=
  if cands.length = 0 then ⟨0, []⟩
  else
    let h0 := loadHistory histFile
    let delta := computeDelta h0 cands
    if delta.2.length = 0 then ⟨0, []⟩
    else
      let lastD := delta.2.getLast?.getD ""
      let r := processDates fields sample lastD delta.1 delta.2
      ⟨0, [.writeLaiMap r.2.1, .writeNdviMap r.2.2,
           .writeHistoryFile r.1, .writeMarker lastD]⟩

/-! ### Crash model of the history save (lines 413–414)

`with open(history_file, 'w', ...)` truncates the target file at open and
`json.dump` then writes the serialized history into it directly — there is
no temp-file-and-rename step.  The on-disk states a crash can expose are
the fold prefixes of this step sequence. -/

/-- One low-level step of the save: opening with mode `w` (truncation), or
writing one further character of the serialized history. -/
inductive WriteStep where
  | openTrunc
  | writeChar (c : Char)
deriving DecidableEq

/-- The step sequence of `with open(path, 'w') as f: json.dump(history, f)`. -/
def saveSteps (content : String) : List WriteStep :=
  WriteStep.openTrunc :: content.data.map WriteStep.writeChar

/-- Effect of one step on the on-disk file (`none` = file absent). -/
def applyWriteStep : Option (List Char) → WriteStep → Option (List Char)
  | _, .openTrunc => Option.some []
  | f, .writeChar c => f.map (· ++ [c])

/-- The on-disk history file after the first `k` steps of the save — the
state a crash at that point leaves behind. -/
def crashState (old : Option (List Char)) (content : String) (k : Nat) :
    Option (List Char) :=
  ((saveSteps content).take k).foldl applyWriteStep old


/-! ### Association-list facts -/

theorem lookup_append {α : Type} (l₁ l₂ : List (String × α)) (k : String) :
    (l₁ ++ l₂).lookup k = (l₁.lookup k).or (l₂.lookup k) := by
  induction l₁ with
  | nil => simp
  | cons p l₁ ih =>
    obtain ⟨k', v⟩ := p
    by_cases hk : k = k'
    · subst hk
      simp [List.lookup_cons]
    · have hb : (k == k') = false := by simp [hk]
      simp [List.lookup_cons, hb, ih]

theorem lookup_isSome_iff_mem_keys {α : Type} (l : List (String × α))
    (k : String) : (l.lookup k).isSome = true ↔ k ∈ l.map Prod.fst := by
  induction l with
  | nil => simp
  | cons p l ih =>
    obtain ⟨k', v⟩ := p
    by_cases hk : k = k'
    · subst hk
      simp [List.lookup_cons]
    · have hb : (k == k') = false := by simp [hk]
      simp [List.lookup_cons, hb, ih, hk]

theorem lookup_eq_none_iff {α : Type} (l : List (String × α)) (k : String) :
    l.lookup k = Option.none ↔ k ∉ l.map Prod.fst := by
  rw [← lookup_isSome_iff_mem_keys]
  cases l.lookup k <;> simp

theorem lookup_singleton_ne {α : Type} {k d : String} (v : α) (h : d ≠ k) :
    ([(k, v)].lookup d) = Option.none := by
  have hb : (d == k) = false := by simp [h]
  simp [List.lookup_cons, hb]

theorem dictInsert_fresh {α : Type} {l : List (String × α)} {k : String}
    (v : α) (h : l.lookup k = Option.none) :
    dictInsert l k v = l ++ [(k, v)] := by
  unfold dictInsert
  rw [h]
  rfl

/-! ### Behaviour of the delta loop -/

/-- The `system:index` of the first candidate whose derived date is `d` —
the "first-seen" index for that date. -/
def findFirstIdx (cands : List S2Feature) (d : String) : Option String :=
  (cands.filterMap S2Feature.sysIndex).find? fun i => dateOf i == d

theorem deltaLoop_dates (h : History) (cs : List S2Feature) :
    (deltaLoop h cs).1.dates = h.dates := by
  induction cs generalizing h with
  | nil => rfl
  | cons c cs ih =>
    cases hc : c.sysIndex with
    | none => simp [deltaLoop, hc, ih]
    | some idx =>
      cases hx : h.date_to_index.lookup (dateOf idx) with
      | none => simp [deltaLoop, hc, hx, ih]
      | some v => simp [deltaLoop, hc, hx, ih]

theorem deltaLoop_pixel_counts (h : History) (cs : List S2Feature) :
    (deltaLoop h cs).1.pixel_counts = h.pixel_counts := by
  induction cs generalizing h with
  | nil => rfl
  | cons c cs ih =>
    cases hc : c.sysIndex with
    | none => simp [deltaLoop, hc, ih]
    | some idx =>
      cases hx : h.date_to_index.lookup (dateOf idx) with
      | none => simp [deltaLoop, hc, hx, ih]
      | some v => simp [deltaLoop, hc, hx, ih]

theorem deltaLoop_mem (h : History) (cs : List S2Feature) (d : String) :
    d ∈ (deltaLoop h cs).2 ↔
      h.date_to_index.lookup d = Option.none ∧
      ∃ c ∈ cs, ∃ i, c.sysIndex = Option.some i ∧ dateOf i = d := by
  induction cs generalizing h with
  | nil => simp [deltaLoop]
  | cons c cs ih =>
    cases hc : c.sysIndex with
    | none =>
      simp only [deltaLoop, hc, ih]
      constructor
      · rintro ⟨h1, c', hc', i, hi, hd⟩
        exact ⟨h1, c', List.mem_cons_of_mem _ hc', i, hi, hd⟩
      · rintro ⟨h1, c', hc', i, hi, hd⟩
        rcases List.mem_cons.mp hc' with rfl | hc'
        · rw [hc] at hi; exact absurd hi (by simp)
        · exact ⟨h1, c', hc', i, hi, hd⟩
    | some idx =>
      cases hx : h.date_to_index.lookup (dateOf idx) with
      | some v =>
        simp only [deltaLoop, hc, hx, ih]
        constructor
        · rintro ⟨h1, c', hc', i, hi, hd⟩
          exact ⟨h1, c', List.mem_cons_of_mem _ hc', i, hi, hd⟩
        · rintro ⟨h1, c', hc', i, hi, hd⟩
          rcases List.mem_cons.mp hc' with rfl | hc'
          · rw [hc] at hi
            obtain rfl : idx = i := by injection hi
            rw [hd, h1] at hx
            exact absurd hx (by simp)
          · exact ⟨h1, c', hc', i, hi, hd⟩
      | none =>
        have hins : ∀ e, (dictInsert h.date_to_index (dateOf idx) idx).lookup e =
            if e = dateOf idx then Option.some idx
            else h.date_to_index.lookup e := by
          intro e
          rw [dictInsert_fresh idx hx, lookup_append]
          by_cases he : e = dateOf idx
          · subst he
            rw [hx]
            simp [List.lookup_cons]
          · rw [lookup_singleton_ne idx he, if_neg he]
            cases h.date_to_index.lookup e <;> simp
        simp only [deltaLoop, hc, hx, List.mem_cons]
        rw [ih]
        constructor
        · rintro (rfl | ⟨h1, c', hc', i, hi, hd⟩)
          · exact ⟨hx, c, Or.inl rfl, idx, hc, rfl⟩
          · rw [hins] at h1
            by_cases hdd : d = dateOf idx
            · rw [if_pos hdd] at h1
              exact absurd h1 (by simp)
            · rw [if_neg hdd] at h1
              exact ⟨h1, c', Or.inr hc', i, hi, hd⟩
        · rintro ⟨h1, c', hc', i, hi, hd⟩
          by_cases hdd : d = dateOf idx
          · exact Or.inl hdd
          · right
            refine ⟨?_, ?_⟩
            · rw [hins, if_neg hdd]
              exact h1
            · rcases hc' with rfl | hc'
              · rw [hc] at hi
                obtain rfl : idx = i := by injection hi
                exact absurd hd (Ne.symm hdd)
              · exact ⟨c', hc', i, hi, hd⟩

theorem deltaLoop_nodup (h : History) (cs : List S2Feature) :
    (deltaLoop h cs).2.Nodup := by
  induction cs generalizing h with
  | nil => simp [deltaLoop]
  | cons c cs ih =>
    cases hc : c.sysIndex with
    | none => simpa [deltaLoop, hc] using ih h
    | some idx =>
      cases hx : h.date_to_index.lookup (dateOf idx) with
      | some v => simpa [deltaLoop, hc, hx] using ih h
      | none =>
        simp only [deltaLoop, hc, hx, List.nodup_cons]
        refine ⟨fun hmem => ?_, ih _⟩
        rw [deltaLoop_mem] at hmem
        obtain ⟨h1, -⟩ := hmem
        rw [dictInsert_fresh idx hx, lookup_append, hx] at h1
        simp [List.lookup_cons] at h1

theorem deltaLoop_lookup (h : History) (cs : List S2Feature) (d : String) :
    (deltaLoop h cs).1.date_to_index.lookup d =
      (h.date_to_index.lookup d).or (findFirstIdx cs d) := by
  induction cs generalizing h with
  | nil =>
    simp [deltaLoop, findFirstIdx]
  | cons c cs ih =>
    cases hc : c.sysIndex with
    | none =>
      simp only [deltaLoop, hc, ih]
      simp [findFirstIdx, List.filterMap_cons, hc]
    | some idx =>
      have hfind : findFirstIdx (c :: cs) d =
          if dateOf idx = d then Option.some idx else findFirstIdx cs d := by
        unfold findFirstIdx
        simp only [List.filterMap_cons, hc, List.find?_cons]
        by_cases hd : dateOf idx = d
        · have hb : (dateOf idx == d) = true := by simp [hd]
          simp only [hb, if_pos hd]
        · have hb : (dateOf idx == d) = false := by simp [hd]
          simp only [hb, if_neg hd]
      cases hx : h.date_to_index.lookup (dateOf idx) with
      | some v =>
        simp only [deltaLoop, hc, hx, ih, hfind]
        by_cases hd : dateOf idx = d
        · subst hd
          rw [hx]
          rfl
        · rw [if_neg hd]
      | none =>
        simp only [deltaLoop, hc, hx, ih, hfind]
        rw [dictInsert_fresh idx hx, lookup_append]
        by_cases hd : dateOf idx = d
        · subst hd
          rw [hx]
          simp [List.lookup_cons]
        · rw [lookup_singleton_ne idx fun hh => hd hh.symm, if_neg hd]
          cases h.date_to_index.lookup d <;> rfl

theorem deltaLoop_keys (h : History) (cs : List S2Feature) :
    (deltaLoop h cs).1.date_to_index.map Prod.fst =
      h.date_to_index.map Prod.fst ++ (deltaLoop h cs).2 := by
  induction cs generalizing h with
  | nil => simp [deltaLoop]
  | cons c cs ih =>
    cases hc : c.sysIndex with
    | none => simp [deltaLoop, hc, ih]
    | some idx =>
      cases hx : h.date_to_index.lookup (dateOf idx) with
      | some v => simp [deltaLoop, hc, hx, ih]
      | none =>
        simp only [deltaLoop, hc, hx]
        rw [ih, dictInsert_fresh idx hx]
        simp

/-! ### Behaviour of `computeDelta` -/

theorem computeDelta_fst (h : History) (cs : List S2Feature) :
    (computeDelta h cs).1 = (deltaLoop h cs).1 := rfl

theorem computeDelta_perm (h : History) (cs : List S2Feature) :
    (computeDelta h cs).2.Perm (deltaLoop h cs).2 :=
  List.perm_insertionSort StrLe _

theorem computeDelta_mem (h : History) (cs : List S2Feature) (d : String) :
    d ∈ (computeDelta h cs).2 ↔
      h.date_to_index.lookup d = Option.none ∧
      ∃ c ∈ cs, ∃ i, c.sysIndex = Option.some i ∧ dateOf i = d := by
  rw [(computeDelta_perm h cs).mem_iff, deltaLoop_mem]

theorem computeDelta_nodup (h : History) (cs : List S2Feature) :
    (computeDelta h cs).2.Nodup :=
  (computeDelta_perm h cs).nodup_iff.mpr (deltaLoop_nodup h cs)

theorem computeDelta_sorted (h : History) (cs : List S2Feature) :
    List.Sorted StrLe (computeDelta h cs).2 :=
  List.sorted_insertionSort StrLe _

/-! ### Well-formedness of a history -/

/-- The history invariant: no duplicate dates, no duplicate dictionary keys,
and `dates`, the keys of `date_to_index` and the keys of `pixel_counts` are
the same set.  Holds for the empty history and for any history produced from
a JSON object of the documented shape. -/
def WF (h : History) : Prop :=
  h.dates.Nodup ∧
  (h.date_to_index.map Prod.fst).Nodup ∧
  (h.pixel_counts.map Prod.fst).Nodup ∧
  (∀ d ∈ h.dates, (h.date_to_index.lookup d).isSome = true ∧
    (h.pixel_counts.lookup d).isSome = true) ∧
  (∀ p ∈ h.date_to_index, p.1 ∈ h.dates) ∧
  (∀ p ∈ h.pixel_counts, p.1 ∈ h.dates)

instance (h : History) : Decidable (WF h) := by
  unfold WF; infer_instance

/-! ### Per-field contributions (theorem-side closed forms) -/

/-- The LAI items one field contributes to one date's layer: nothing if the
field is not a polygon, the sampling raised, or a response lacks `features`;
otherwise its rendered LAI pixels. -/
def fieldContribLai (f : FieldPoly) (r : SampleResult) : List MapItem :=
  if f.geomType = "Polygon" then
    match r with
    | .ok (Option.some laiF) (Option.some _) =>
      laiF.filterMap (renderPixel get_lai_color)
    | _ => []
  else []

/-- The NDVI items one field contributes to one date's layer. -/
def fieldContribNdvi (f : FieldPoly) (r : SampleResult) : List MapItem :=
  if f.geomType = "Polygon" then
    match r with
    | .ok (Option.some _) (Option.some ndviF) =>
      ndviF.filterMap (renderPixel get_ndvi_color)
    | _ => []
  else []

/-- The pixels one field contributes to `date_pixels`: the length of the LAI
`features` list when the field is a polygon and both responses carry
`features`; zero otherwise.  NDVI features are never counted, and pixels
later skipped during rendering are still counted. -/
def fieldPixelContribution (f : FieldPoly) (r : SampleResult) : Nat :=
  if f.geomType = "Polygon" then
    match r with
    | .ok (Option.some laiF) (Option.some _) => laiF.length
    | _ => 0
  else 0

/-- Concatenated LAI contributions of the fields from position `j` on. -/
def fieldLaiItems (samp : Nat → SampleResult) :
    Nat → List FieldPoly → List MapItem
  | _, [] => []
  | j, f :: fs => fieldContribLai f (samp j) ++ fieldLaiItems samp (j + 1) fs

/-- Concatenated NDVI contributions of the fields from position `j` on. -/
def fieldNdviItems (samp : Nat → SampleResult) :
    Nat → List FieldPoly → List MapItem
  | _, [] => []
  | j, f :: fs => fieldContribNdvi f (samp j) ++ fieldNdviItems samp (j + 1) fs

/-- Summed pixel contributions of the fields from position `j` on. -/
def fieldPixelTotal (samp : Nat → SampleResult) :
    Nat → List FieldPoly → Nat
  | _, [] => 0
  | j, f :: fs => fieldPixelContribution f (samp j) + fieldPixelTotal samp (j + 1) fs

theorem fieldsLoop_eq (samp : Nat → SampleResult) (fs : List FieldPoly) :
    ∀ (j : Nat) (a b : List MapItem) (n : Nat),
    fieldsLoop samp j fs (a, b, n) =
      (a ++ fieldLaiItems samp j fs, b ++ fieldNdviItems samp j fs,
       n + fieldPixelTotal samp j fs) := by
  induction fs with
  | nil => intro j a b n; simp [fieldsLoop, fieldLaiItems, fieldNdviItems, fieldPixelTotal]
  | cons f fs ih =>
    intro j a b n
    by_cases hp : f.geomType = "Polygon"
    · cases hr : samp j with
      | err =>
        simp [fieldsLoop, hp, hr, ih, fieldLaiItems, fieldNdviItems,
          fieldPixelTotal, fieldContribLai, fieldContribNdvi,
          fieldPixelContribution]
      | ok laiS ndviS =>
        cases laiS with
        | none =>
          simp [fieldsLoop, hp, hr, ih, fieldLaiItems, fieldNdviItems,
            fieldPixelTotal, fieldContribLai, fieldContribNdvi,
            fieldPixelContribution]
        | some laiF =>
          cases ndviS with
          | none =>
            simp [fieldsLoop, hp, hr, ih, fieldLaiItems, fieldNdviItems,
              fieldPixelTotal, fieldContribLai, fieldContribNdvi,
              fieldPixelContribution]
          | some ndviF =>
            simp only [fieldsLoop, hp, if_true, hr, ih, fieldLaiItems,
              fieldNdviItems, fieldPixelTotal, fieldContribLai,
              fieldContribNdvi, fieldPixelContribution]
            simp [List.append_assoc, Nat.add_assoc]
    · simp [fieldsLoop, hp, ih, fieldLaiItems, fieldNdviItems,
        fieldPixelTotal, fieldContribLai, fieldContribNdvi,
        fieldPixelContribution]

/-- `processDate` in closed form. -/
theorem processDate_eq (fields : List FieldPoly) (samp : Nat → SampleResult)
    (d lastD : String) :
    processDate fields samp d lastD =
      (⟨"LAI_" ++ d, d = lastD,
        fieldLaiItems samp 0 fields ++ boundaryItems fields⟩,
       ⟨"NDVI_" ++ d, d = lastD,
        fieldNdviItems samp 0 fields ++ boundaryItems fields⟩,
       fieldPixelTotal samp 0 fields) := by
  unfold processDate
  rw [fieldsLoop_eq]
  simp

theorem fieldLaiItems_congr {samp samp' : Nat → SampleResult}
    (h : ∀ j, samp j = samp' j) (n : Nat) (fs : List FieldPoly) :
    fieldLaiItems samp n fs = fieldLaiItems samp' n fs := by
  induction fs generalizing n with
  | nil => rfl
  | cons f fs ih => simp [fieldLaiItems, h, ih]

theorem fieldNdviItems_congr {samp samp' : Nat → SampleResult}
    (h : ∀ j, samp j = samp' j) (n : Nat) (fs : List FieldPoly) :
    fieldNdviItems samp n fs = fieldNdviItems samp' n fs := by
  induction fs generalizing n with
  | nil => rfl
  | cons f fs ih => simp [fieldNdviItems, h, ih]

theorem fieldPixelTotal_congr {samp samp' : Nat → SampleResult}
    (h : ∀ j, samp j = samp' j) (n : Nat) (fs : List FieldPoly) :
    fieldPixelTotal samp n fs = fieldPixelTotal samp' n fs := by
  induction fs generalizing n with
  | nil => rfl
  | cons f fs ih => simp [fieldPixelTotal, h, ih]

/-! ### Behaviour of the date loop -/

theorem processDates_d2i (fields : List FieldPoly)
    (sample : String → Nat → SampleResult) (lastD : String)
    (h : History) (ds : List String) :
    (processDates fields sample lastD h ds).1.date_to_index =
      h.date_to_index := by
  induction ds generalizing h with
  | nil => rfl
  | cons d ds ih => simp [processDates, ih]

theorem processDates_dates (fields : List FieldPoly)
    (sample : String → Nat → SampleResult) (lastD : String)
    (h : History) (ds : List String) :
    (processDates fields sample lastD h ds).1.dates = h.dates ++ ds := by
  induction ds generalizing h with
  | nil => simp [processDates]
  | cons d ds ih => simp [processDates, ih]

theorem processDates_layers_lai (fields : List FieldPoly)
    (sample : String → Nat → SampleResult) (lastD : String)
    (h : History) (ds : List String) :
    (processDates fields sample lastD h ds).2.1 =
      ds.map fun d => (processDate fields (sample d) d lastD).1 := by
  induction ds generalizing h with
  | nil => rfl
  | cons d ds ih => simp [processDates, ih]

theorem processDates_layers_ndvi (fields : List FieldPoly)
    (sample : String → Nat → SampleResult) (lastD : String)
    (h : History) (ds : List String) :
    (processDates fields sample lastD h ds).2.2 =
      ds.map fun d => (processDate fields (sample d) d lastD).2.1 := by
  induction ds generalizing h with
  | nil => rfl
  | cons d ds ih => simp [processDates, ih]

theorem processDates_pc (fields : List FieldPoly)
    (sample : String → Nat → SampleResult) (lastD : String) :
    ∀ (ds : List String) (h : History), ds.Nodup →
    (∀ d ∈ ds, h.pixel_counts.lookup d = Option.none) →
    (processDates fields sample lastD h ds).1.pixel_counts =
      h.pixel_counts ++
        ds.map fun d => (d, (processDate fields (sample d) d lastD).2.2) := by
  intro ds
  induction ds with
  | nil => intro h _ _; simp [processDates]
  | cons d ds ih =>
    intro h hnd hfresh
    have hd : h.pixel_counts.lookup d = Option.none :=
      hfresh d (List.mem_cons_self _ _)
    simp only [processDates]
    rw [ih _ (List.nodup_cons.mp hnd).2 ?fresh]
    case fresh =>
      intro d' hd'
      simp only [dictInsert_fresh _ hd, lookup_append]
      rw [hfresh d' (List.mem_cons_of_mem _ hd'),
        lookup_singleton_ne _ fun hh =>
          (List.nodup_cons.mp hnd).1 (by rw [← hh]; exact hd')]
      rfl
    simp [dictInsert_fresh _ hd]

/-! ### Run-level helper lemmas -/

theorem computeDelta_nil (h : History) : computeDelta h [] = (h, []) := rfl

theorem runScript_exit (histFile : Option History) (cands : List S2Feature)
    (fields : List FieldPoly) (sample : String → Nat → SampleResult) :
    (runScript histFile cands fields sample).exitCode = 0 := by
  unfold runScript
  by_cases hc : cands.length = 0
  · rw [if_pos hc]
  · rw [if_neg hc]
    by_cases hn : (computeDelta (loadHistory histFile) cands).2.length = 0
    · simp only [hn, if_pos]
    · simp only [hn, if_neg, if_false]

/-- The full-run shape of the trace, when the delta is non-empty. -/
theorem runScript_full (histFile : Option History) (cands : List S2Feature)
    (fields : List FieldPoly) (sample : String → Nat → SampleResult)
    (hne : (computeDelta (loadHistory histFile) cands).2 ≠ []) :
    runScript histFile cands fields sample =
      ⟨0, [.writeLaiMap (processDates fields sample
            ((computeDelta (loadHistory histFile) cands).2.getLast?.getD "")
            (computeDelta (loadHistory histFile) cands).1
            (computeDelta (loadHistory histFile) cands).2).2.1,
          .writeNdviMap (processDates fields sample
            ((computeDelta (loadHistory histFile) cands).2.getLast?.getD "")
            (computeDelta (loadHistory histFile) cands).1
            (computeDelta (loadHistory histFile) cands).2).2.2,
          .writeHistoryFile (processDates fields sample
            ((computeDelta (loadHistory histFile) cands).2.getLast?.getD "")
            (computeDelta (loadHistory histFile) cands).1
            (computeDelta (loadHistory histFile) cands).2).1,
          .writeMarker ((computeDelta (loadHistory histFile) cands).2.getLast?.getD "")]⟩ := by
  have hc : ¬ cands.length = 0 := by
    intro h0
    rw [List.length_eq_zero] at h0
    subst h0
    exact hne rfl
  have hn : ¬ (computeDelta (loadHistory histFile) cands).2.length = 0 := by
    intro h0
    exact hne (List.length_eq_zero.mp h0)
  simp only [runScript]
  rw [if_neg hc, if_neg hn]

theorem lookup_map_pairs {β : Type} (g : String → β) (l : List String)
    (e : String) :
    (l.map fun dd => (dd, g dd)).lookup e =
      if e ∈ l then Option.some (g e) else Option.none := by
  induction l with
  | nil => simp
  | cons dd l ih =>
    by_cases he : e = dd
    · subst he
      simp [List.lookup_cons]
    · have hb : (e == dd) = false := by simp [he]
      simp [List.lookup_cons, hb, ih, he]

theorem sorted_le_getLast :
    ∀ (l : List String), List.Sorted StrLe l → ∀ (hne : l ≠ []) (a : String),
      a ∈ l → StrLe a (l.getLast hne) := by
  intro l
  induction l with
  | nil => intro _ hne a ha; exact absurd rfl hne
  | cons x t ih =>
    intro hs hne a ha
    cases t with
    | nil =>
      obtain rfl : a = x := by simpa using ha
      exact charListLe_refl _
    | cons y t' =>
      have hlast : (x :: y :: t').getLast hne = (y :: t').getLast (by simp) :=
        List.getLast_cons (by simp)
      rcases List.mem_cons.mp ha with rfl | ha2
      · have hxy : ∀ b ∈ y :: t', StrLe a b := (List.sorted_cons.mp hs).1
        rw [hlast]
        exact hxy _ (List.getLast_mem _)
      · rw [hlast]
        exact ih (List.sorted_cons.mp hs).2 (by simp) a ha2

/-- One candidate per-feature validity condition; decidable so that
witnesses can be checked by evaluation. -/
def CandValid (c : S2Feature) : Prop :=
  ∀ i, c.sysIndex = Option.some i → ValidIdx i

instance (c : S2Feature) : Decidable (CandValid c) :=
  match hc : c.sysIndex with
  | Option.none => isTrue (by
      intro i hi
      rw [hc] at hi
      exact absurd hi (by simp))
  | Option.some i =>
    if h : ValidIdx i then
      isTrue (by
        intro i' hi'
        rw [hc] at hi'
        obtain rfl : i = i' := by injection hi'
        exact h)
    else isFalse fun hall => h (hall i hc)

/-- Every date in a computed delta is a well-formed ISO date (given valid
candidate indices). -/
theorem computeDelta_mem_iso {h : History} {cands : List S2Feature}
    (hv : ∀ c ∈ cands, CandValid c) {d : String}
    (hd : d ∈ (computeDelta h cands).2) : isIsoDate d = true := by
  obtain ⟨-, c, hc, i, hi, rfl⟩ := (computeDelta_mem h cands d).mp hd
  exact dateOf_isIsoDate (hv c hc i hi)

theorem WF_not_mem_dates {h : History} (hWF : WF h) {d : String}
    (hd : h.date_to_index.lookup d = Option.none) : d ∉ h.dates := by
  intro hm
  have := (hWF.2.2.2.1 d hm).1
  rw [hd] at this
  simp at this

theorem WF_pc_lookup_none {h : History} (hWF : WF h) {d : String}
    (hd : d ∉ h.dates) : h.pixel_counts.lookup d = Option.none := by
  rw [lookup_eq_none_iff]
  intro hk
  obtain ⟨p, hp, rfl⟩ := List.mem_map.mp hk
  exact hd (hWF.2.2.2.2.2 p hp)

theorem WF_d2i_keys_sub {h : History} (hWF : WF h) {d : String}
    (hd : d ∈ h.date_to_index.map Prod.fst) : d ∈ h.dates := by
  obtain ⟨p, hp, rfl⟩ := List.mem_map.mp hd
  exact hWF.2.2.2.2.1 p hp

/-- The history written at the end of a full run, in closed form: the old
dates followed by the sorted new dates; the mutated `date_to_index`; the old
pixel counts followed by one entry per new date whose value is that date's
summed per-field pixel contribution. -/
theorem run_final_history (histFile : Option History) (cands : List S2Feature)
    (fields : List FieldPoly) (sample : String → Nat → SampleResult)
    (lastD : String) (hWF : WF (loadHistory histFile)) :
    (processDates fields sample lastD (computeDelta (loadHistory histFile) cands).1
        (computeDelta (loadHistory histFile) cands).2).1 =
      ⟨(loadHistory histFile).dates ++ (computeDelta (loadHistory histFile) cands).2,
       (computeDelta (loadHistory histFile) cands).1.date_to_index,
       (loadHistory histFile).pixel_counts ++
         (computeDelta (loadHistory histFile) cands).2.map
           fun d => (d, fieldPixelTotal (sample d) 0 fields)⟩ := by
  have hfresh : ∀ d ∈ (computeDelta (loadHistory histFile) cands).2,
      (computeDelta (loadHistory histFile) cands).1.pixel_counts.lookup d =
        Option.none := by
    intro d hd
    rw [computeDelta_fst, deltaLoop_pixel_counts]
    obtain ⟨hnone, -⟩ :=
      (computeDelta_mem (loadHistory histFile) cands d).mp hd
    exact WF_pc_lookup_none hWF (WF_not_mem_dates hWF hnone)
  have hpc := processDates_pc fields sample lastD
    (computeDelta (loadHistory histFile) cands).2
    (computeDelta (loadHistory histFile) cands).1
    (computeDelta_nodup _ _) hfresh
  have hdd := processDates_dates fields sample lastD
    (computeDelta (loadHistory histFile) cands).1
    (computeDelta (loadHistory histFile) cands).2
  have hdi := processDates_d2i fields sample lastD
    (computeDelta (loadHistory histFile) cands).1
    (computeDelta (loadHistory histFile) cands).2
  rw [show (processDates fields sample lastD
      (computeDelta (loadHistory histFile) cands).1
      (computeDelta (loadHistory histFile) cands).2).1 =
    ⟨(processDates fields sample lastD
        (computeDelta (loadHistory histFile) cands).1
        (computeDelta (loadHistory histFile) cands).2).1.dates,
     (processDates fields sample lastD
        (computeDelta (loadHistory histFile) cands).1
        (computeDelta (loadHistory histFile) cands).2).1.date_to_index,
     (processDates fields sample lastD
        (computeDelta (loadHistory histFile) cands).1
        (computeDelta (loadHistory histFile) cands).2).1.pixel_counts⟩ from rfl]
  rw [hdd, hdi, hpc]
  have : (computeDelta (loadHistory histFile) cands).1.dates =
      (loadHistory histFile).dates := by
    rw [computeDelta_fst, deltaLoop_dates]
  rw [this]
  have : (computeDelta (loadHistory histFile) cands).1.pixel_counts =
      (loadHistory histFile).pixel_counts := by
    rw [computeDelta_fst, deltaLoop_pixel_counts]
  rw [this]
  have hfun : (fun d => (d, (processDate fields (sample d) d lastD).2.2)) =
      fun d => (d, fieldPixelTotal (sample d) 0 fields) := by
    funext d
    rw [processDate_eq]
  rw [hfun]

theorem or_isSome_left {α : Type} {a : Option α} (h : a.isSome = true)
    (b : Option α) : (a.or b).isSome = true := by
  cases a with
  | none => simp at h
  | some v => rfl

theorem or_some_left {α : Type} {a : Option α} {v : α}
    (h : a = Option.some v) (b : Option α) : a.or b = Option.some v := by
  rw [h]; rfl

theorem none_or {α : Type} (b : Option α) : (Option.none : Option α).or b = b :=
  rfl

/-- If some candidate carries date `d`, the first-seen index for `d` exists. -/
theorem findFirstIdx_ne_none {cands : List S2Feature} {d : String}
    (hc : ∃ c ∈ cands, ∃ i, c.sysIndex = Option.some i ∧ dateOf i = d) :
    findFirstIdx cands d ≠ Option.none := by
  intro h0
  rw [findFirstIdx, List.find?_eq_none] at h0
  obtain ⟨c, hcm, i, hi, hdo⟩ := hc
  have hmem : i ∈ cands.filterMap S2Feature.sysIndex :=
    List.mem_filterMap.mpr ⟨c, hcm, hi⟩
  have := h0 i hmem
  rw [hdo] at this
  simp at this

/-- Both early exits of the run leave a trivial result. -/
theorem runScript_noop (histFile : Option History) (cands : List S2Feature)
    (fields : List FieldPoly) (sample : String → Nat → SampleResult)
    (hnil : (computeDelta (loadHistory histFile) cands).2 = []) :
    runScript histFile cands fields sample = ⟨0, []⟩ := by
  simp only [runScript]
  by_cases hc : cands.length = 0
  · rw [if_pos hc]
  · rw [if_neg hc, hnil]
    rfl

theorem deltaLoop_snd_congr :
    ∀ (cs : List S2Feature) (h h' : History),
      h'.date_to_index = h.date_to_index →
      (deltaLoop h' cs).2 = (deltaLoop h cs).2 := by
  intro cs
  induction cs with
  | nil => intro h h' _; rfl
  | cons c cs ih =>
    intro h h' hd
    cases hc : c.sysIndex with
    | none =>
      simp only [deltaLoop, hc]
      exact ih h h' hd
    | some idx =>
      cases hx : h.date_to_index.lookup (dateOf idx) with
      | some v =>
        have hx' : h'.date_to_index.lookup (dateOf idx) = Option.some v := by
          rw [hd, hx]
        simp only [deltaLoop, hc, hx, hx']
        exact ih h h' hd
      | none =>
        have hx' : h'.date_to_index.lookup (dateOf idx) = Option.none := by
          rw [hd, hx]
        simp only [deltaLoop, hc, hx, hx']
        have hstep := ih
          ⟨h.dates, dictInsert h.date_to_index (dateOf idx) idx,
            h.pixel_counts⟩
          ⟨h'.dates, dictInsert h'.date_to_index (dateOf idx) idx,
            h'.pixel_counts⟩
          (by simp [hd])
        rw [hstep]

/-- Re-running the delta loop on the updated history finds nothing new. -/
theorem computeDelta_rescan_empty (h : History) (cs : List S2Feature) :
    (computeDelta (computeDelta h cs).1 cs).2 = [] := by
  rw [List.eq_nil_iff_forall_not_mem]
  intro d hd
  rw [computeDelta_mem] at hd
  obtain ⟨hnone, c, hc, i, hi, rfl⟩ := hd
  rw [computeDelta_fst, deltaLoop_lookup] at hnone
  have hfs : findFirstIdx cs (dateOf i) ≠ Option.none :=
    findFirstIdx_ne_none ⟨c, hc, i, hi, rfl⟩
  cases hl : h.date_to_index.lookup (dateOf i) with
  | some v =>
    rw [or_some_left hl] at hnone
    exact Option.noConfusion hnone
  | none =>
    rw [hl, none_or] at hnone
    exact hfs hnone

/-! ### Fault injection: replacing one (date, field) sampling outcome -/

/-- The oracle `sample` with the outcome for date `d`, field position `j`
replaced by `r`. -/
def omitOracle (sample : String → Nat → SampleResult) (d : String) (j : Nat)
    (r : SampleResult) : String → Nat → SampleResult :=
  fun d' j' => if d' = d ∧ j' = j then r else sample d' j'

/-- LAI items of a date layer with the contribution of the field at position
`skipIdx` removed and every other field's contribution kept. -/
def laiItemsOmitting (samp : Nat → SampleResult) (skipIdx : Nat) :
    Nat → List FieldPoly → List MapItem
  | _, [] => []
  | n, f :: fs =>
    (if n = skipIdx then [] else fieldContribLai f (samp n)) ++
      laiItemsOmitting samp skipIdx (n + 1) fs

/-- NDVI analogue of `laiItemsOmitting`. -/
def ndviItemsOmitting (samp : Nat → SampleResult) (skipIdx : Nat) :
    Nat → List FieldPoly → List MapItem
  | _, [] => []
  | n, f :: fs =>
    (if n = skipIdx then [] else fieldContribNdvi f (samp n)) ++
      ndviItemsOmitting samp skipIdx (n + 1) fs

/-- Pixel total with the contribution of the field at position `skipIdx`
removed. -/
def pixelTotalOmitting (samp : Nat → SampleResult) (skipIdx : Nat) :
    Nat → List FieldPoly → Nat
  | _, [] => 0
  | n, f :: fs =>
    (if n = skipIdx then 0 else fieldPixelContribution f (samp n)) +
      pixelTotalOmitting samp skipIdx (n + 1) fs

/-- A failed sampling outcome (exception, or a response without `features`)
contributes nothing: no items on either layer and zero pixels. -/
theorem bad_result_no_contribution {r : SampleResult}
    (hr : r = SampleResult.err ∨
      (∃ x, r = SampleResult.ok Option.none x) ∨
      (∃ x, r = SampleResult.ok x Option.none)) (f : FieldPoly) :
    fieldContribLai f r = [] ∧ fieldContribNdvi f r = [] ∧
      fieldPixelContribution f r = 0 := by
  rcases hr with rfl | ⟨x, rfl⟩ | ⟨x, rfl⟩ <;>
    [skip; skip; cases x] <;>
    by_cases hp : f.geomType = "Polygon" <;>
      simp [fieldContribLai, fieldContribNdvi, fieldPixelContribution, hp]

theorem fieldLaiItems_omit (samp : Nat → SampleResult) (j : Nat)
    (r : SampleResult) (hr : ∀ f, fieldContribLai f r = []) :
    ∀ (n : Nat) (fs : List FieldPoly),
      fieldLaiItems (fun j' => if j' = j then r else samp j') n fs =
        laiItemsOmitting samp j n fs := by
  intro n fs
  induction fs generalizing n with
  | nil => rfl
  | cons f fs ih =>
    by_cases hn : n = j <;>
      simp [fieldLaiItems, laiItemsOmitting, hn, hr, ih]

theorem fieldNdviItems_omit (samp : Nat → SampleResult) (j : Nat)
    (r : SampleResult) (hr : ∀ f, fieldContribNdvi f r = []) :
    ∀ (n : Nat) (fs : List FieldPoly),
      fieldNdviItems (fun j' => if j' = j then r else samp j') n fs =
        ndviItemsOmitting samp j n fs := by
  intro n fs
  induction fs generalizing n with
  | nil => rfl
  | cons f fs ih =>
    by_cases hn : n = j <;>
      simp [fieldNdviItems, ndviItemsOmitting, hn, hr, ih]

theorem fieldPixelTotal_omit (samp : Nat → SampleResult) (j : Nat)
    (r : SampleResult) (hr : ∀ f, fieldPixelContribution f r = 0) :
    ∀ (n : Nat) (fs : List FieldPoly),
      fieldPixelTotal (fun j' => if j' = j then r else samp j') n fs =
        pixelTotalOmitting samp j n fs := by
  intro n fs
  induction fs generalizing n with
  | nil => rfl
  | cons f fs ih =>
    by_cases hn : n = j <;>
      simp [fieldPixelTotal, pixelTotalOmitting, hn, hr, ih]

/-! ### The claims -/

/-- C1: for every starting history and candidate collection, `new_dates`
contains exactly the calendar dates of candidates whose date identifier is
not already a key of `history.date_to_index` at the start of the run (each
at most once), and it is sorted ascending by calendar date — and is
therefore independent of the order in which the upstream query returned the
candidates. -/
theorem claim1_delta_contents_and_order (h : History) (cands : List S2Feature)
    (hv : ∀ c ∈ cands, CandValid c) :
    (∀ d, d ∈ (computeDelta h cands).2 ↔
        (h.date_to_index.lookup d = Option.none ∧
         ∃ c ∈ cands, ∃ i, c.sysIndex = Option.some i ∧ dateOf i = d)) ∧
    (computeDelta h cands).2.Nodup ∧
    (computeDelta h cands).2.Pairwise (fun a b => dateVal a ≤ dateVal b) ∧
    (∀ cands', cands.Perm cands' →
      (computeDelta h cands').2 = (computeDelta h cands).2) := by
  refine ⟨fun d => computeDelta_mem h cands d, computeDelta_nodup h cands,
    ?_, ?_⟩
  · exact List.Pairwise.imp_of_mem
      (fun ha hb hab => dateVal_mono (computeDelta_mem_iso hv ha)
        (computeDelta_mem_iso hv hb) hab)
      (computeDelta_sorted h cands)
  · intro cands' hp
    have h1 : (computeDelta h cands').2.Nodup := computeDelta_nodup _ _
    have h2 : (computeDelta h cands).2.Nodup := computeDelta_nodup _ _
    have hmm : ∀ a, a ∈ (computeDelta h cands').2 ↔
        a ∈ (computeDelta h cands).2 := by
      intro a
      rw [computeDelta_mem, computeDelta_mem]
      constructor
      · rintro ⟨hn, c, hc, rest⟩
        exact ⟨hn, c, hp.mem_iff.mpr hc, rest⟩
      · rintro ⟨hn, c, hc, rest⟩
        exact ⟨hn, c, hp.mem_iff.mp hc, rest⟩
    exact List.eq_of_perm_of_sorted
      ((List.perm_ext_iff_of_nodup h1 h2).mpr hmm)
      (computeDelta_sorted _ _) (computeDelta_sorted _ _)

/-- C1 witness: two candidates arriving newest-first against an empty
history. -/
theorem claim1_witness :
    (∀ c ∈ ([⟨Option.some "20250317T000000"⟩,
        ⟨Option.some "20250310T000000"⟩] : List S2Feature), CandValid c) ∧
    (computeDelta emptyHistory [⟨Option.some "20250317T000000"⟩,
        ⟨Option.some "20250310T000000"⟩]).2.Nodup ∧
    (computeDelta emptyHistory [⟨Option.some "20250317T000000"⟩,
        ⟨Option.some "20250310T000000"⟩]).2.Pairwise
      (fun a b => dateVal a ≤ dateVal b) ∧
    (computeDelta emptyHistory [⟨Option.some "20250317T000000"⟩,
        ⟨Option.some "20250310T000000"⟩]).2 =
      ["2025-03-10", "2025-03-17"] :=
  ⟨by decide,
   (claim1_delta_contents_and_order emptyHistory _ (by decide)).2.1,
   (claim1_delta_contents_and_order emptyHistory _ (by decide)).2.2.1,
   by decide⟩

/-- C3 counterexample: computing the delta **does** modify the history — the
delta loop on an empty history and a single candidate adds an entry to
`date_to_index` in place (line 126 of the source). -/
theorem claim3_counterexample :
    (computeDelta emptyHistory [⟨Option.some "20250310T000000"⟩]).1 ≠
      emptyHistory := by decide

/-- C3 amended: delta computation is deterministic — `new_dates` depends
only on `date_to_index` and the candidate list, and `dates` and
`pixel_counts` are untouched while existing `date_to_index` entries are
preserved — but the loop records every new date into
`history.date_to_index` as a side effect, so recomputing the delta on the
updated history with the same candidates yields an empty `new_dates`. -/
theorem claim3_amended_deterministic_with_side_effect (h : History)
    (cs : List S2Feature) :
    (computeDelta h cs).1.dates = h.dates ∧
    (computeDelta h cs).1.pixel_counts = h.pixel_counts ∧
    (∀ d i, h.date_to_index.lookup d = Option.some i →
      (computeDelta h cs).1.date_to_index.lookup d = Option.some i) ∧
    (∀ h', h'.date_to_index = h.date_to_index →
      (computeDelta h' cs).2 = (computeDelta h cs).2) ∧
    (computeDelta (computeDelta h cs).1 cs).2 = [] := by
  refine ⟨?_, ?_, ?_, ?_, computeDelta_rescan_empty h cs⟩
  · rw [computeDelta_fst, deltaLoop_dates]
  · rw [computeDelta_fst, deltaLoop_pixel_counts]
  · intro d i hi
    rw [computeDelta_fst, deltaLoop_lookup]
    exact or_some_left hi _
  · intro h' hd
    show sortedAsc (deltaLoop h' cs).2 = sortedAsc (deltaLoop h cs).2
    rw [deltaLoop_snd_congr cs h h' hd]

/-- C3 witness: the amended statement at a concrete history and candidate
list. -/
theorem claim3_witness :
    (computeDelta ⟨["2025-03-10"], [("2025-03-10", "20250310T000000")],
        [("2025-03-10", 7)]⟩ [⟨Option.some "20250317T000000"⟩]).1.dates =
      ["2025-03-10"] ∧
    (computeDelta ⟨["2025-03-10"], [("2025-03-10", "20250310T000000")],
        [("2025-03-10", 7)]⟩
      [⟨Option.some "20250317T000000"⟩]).1.date_to_index.lookup "2025-03-10" =
      Option.some "20250310T000000" ∧
    (computeDelta (computeDelta ⟨["2025-03-10"],
        [("2025-03-10", "20250310T000000")], [("2025-03-10", 7)]⟩
      [⟨Option.some "20250317T000000"⟩]).1
      [⟨Option.some "20250317T000000"⟩]).2 = [] :=
  ⟨(claim3_amended_deterministic_with_side_effect _ _).1,
   (claim3_amended_deterministic_with_side_effect _ _).2.2.1 "2025-03-10"
     "20250310T000000" (by decide),
   (claim3_amended_deterministic_with_side_effect _ _).2.2.2.2⟩

/-- C6: the color-mapping boundary behaviour: for the LAI scale 0.49 → low,
0.5 → low-mid, 2.99 → high, 3.0 → very high, None/NaN → neutral gray; for
the NDVI scale the analogous five buckets at thresholds 0.2, 0.4, 0.6, 0.8,
with None/NaN → neutral gray. -/
theorem claim6_color_mapping_boundaries :
    get_lai_color (.val (49/100)) = "#d73027" ∧
    get_lai_color (.val (1/2)) = "#fc8d59" ∧
    get_lai_color (.val (299/100)) = "#91cf60" ∧
    get_lai_color (.val 3) = "#1a9850" ∧
    get_lai_color .null = "#808080" ∧
    get_lai_color .nan = "#808080" ∧
    get_ndvi_color (.val (19/100)) = "#d73027" ∧
    get_ndvi_color (.val (1/5)) = "#fc8d59" ∧
    get_ndvi_color (.val (39/100)) = "#fc8d59" ∧
    get_ndvi_color (.val (2/5)) = "#fee08b" ∧
    get_ndvi_color (.val (59/100)) = "#fee08b" ∧
    get_ndvi_color (.val (3/5)) = "#91cf60" ∧
    get_ndvi_color (.val (79/100)) = "#91cf60" ∧
    get_ndvi_color (.val (4/5)) = "#1a9850" ∧
    get_ndvi_color .null = "#808080" ∧
    get_ndvi_color .nan = "#808080" :=
  ⟨by simp only [get_lai_color]; norm_num,
   by simp only [get_lai_color]; norm_num,
   by simp only [get_lai_color]; norm_num,
   by simp only [get_lai_color]; norm_num,
   rfl, rfl,
   by simp only [get_ndvi_color]; norm_num,
   by simp only [get_ndvi_color]; norm_num,
   by simp only [get_ndvi_color]; norm_num,
   by simp only [get_ndvi_color]; norm_num,
   by simp only [get_ndvi_color]; norm_num,
   by simp only [get_ndvi_color]; norm_num,
   by simp only [get_ndvi_color]; norm_num,
   by simp only [get_ndvi_color]; norm_num,
   rfl, rfl⟩

/-- C8 counterexample: the history save is **not** crash-atomic.  The save
opens the target file with mode `w` (truncation) and writes in place
(source lines 413–414); a crash immediately after the open leaves the file
empty — neither the previously-good content nor the new content. -/
theorem claim8_counterexample :
    crashState (Option.some ("old good history" : String).data)
        "new history" 1 ≠
      Option.some ("old good history" : String).data ∧
    crashState (Option.some ("old good history" : String).data)
        "new history" 1 ≠
      Option.some ("new history" : String).data := by decide

theorem crashState_foldl_chars (cs : List Char) :
    ∀ (m : Nat) (acc : List Char),
      ((cs.map WriteStep.writeChar).take m).foldl applyWriteStep
          (Option.some acc) =
        Option.some (acc ++ cs.take m) := by
  induction cs with
  | nil => intro m acc; simp
  | cons c cs ih =>
    intro m acc
    cases m with
    | zero => simp
    | succ m =>
      simp only [List.map_cons, List.take_succ_cons, List.foldl_cons,
        applyWriteStep]
      rw [show (Option.some acc).map (· ++ [c]) =
        Option.some (acc ++ [c]) from rfl, ih]
      simp

/-- C8 amended: the history is saved by truncating the target file and then
writing the serialized content directly into it, so before the save starts
the old content is intact, but a crash at any point from the open onwards
leaves the file holding exactly a prefix of the **new** content (empty right
after the open) — the previously-good content is not preserved. -/
theorem claim8_amended_truncate_then_write (old : List Char)
    (content : String) (k : Nat) :
    crashState (Option.some old) content 0 = Option.some old ∧
    (1 ≤ k → crashState (Option.some old) content k =
      Option.some (content.data.take (k - 1))) := by
  constructor
  · rfl
  · intro hk
    obtain ⟨m, rfl⟩ : ∃ m, k = m + 1 := ⟨k - 1, by omega⟩
    unfold crashState saveSteps
    simp only [List.take_succ_cons, List.foldl_cons, applyWriteStep,
      Nat.add_sub_cancel]
    exact crashState_foldl_chars content.data m []

/-- C8 witness: the amended statement at a concrete crash point. -/
theorem claim8_witness :
    1 ≤ 5 ∧
    crashState (Option.some ("old good history" : String).data)
        "new history" 5 =
      Option.some (("new history" : String).data.take 4) :=
  ⟨by decide,
   (claim8_amended_truncate_then_write ("old good history" : String).data
     "new history" 5).2 (by decide)⟩

/-- Trace form of `runScript_full`, convenient for rewriting. -/
theorem runScript_full_trace (histFile : Option History)
    (cands : List S2Feature) (fields : List FieldPoly)
    (sample : String → Nat → SampleResult)
    (hne : (computeDelta (loadHistory histFile) cands).2 ≠ []) :
    (runScript histFile cands fields sample).trace =
      [.writeLaiMap (processDates fields sample
            ((computeDelta (loadHistory histFile) cands).2.getLast?.getD "")
            (computeDelta (loadHistory histFile) cands).1
            (computeDelta (loadHistory histFile) cands).2).2.1,
       .writeNdviMap (processDates fields sample
            ((computeDelta (loadHistory histFile) cands).2.getLast?.getD "")
            (computeDelta (loadHistory histFile) cands).1
            (computeDelta (loadHistory histFile) cands).2).2.2,
       .writeHistoryFile (processDates fields sample
            ((computeDelta (loadHistory histFile) cands).2.getLast?.getD "")
            (computeDelta (loadHistory histFile) cands).1
            (computeDelta (loadHistory histFile) cands).2).1,
       .writeMarker ((computeDelta (loadHistory histFile) cands).2.getLast?.getD "")] := by
  rw [runScript_full _ _ _ _ hne]

/-- C4: a run with no candidate observations, or whose candidate dates are
all already recorded, exits with code 0 and performs no file write at all —
history file, marker file and map files are untouched. -/
theorem claim4_noop_run_preserves_state (histFile : Option History)
    (cands : List S2Feature) (fields : List FieldPoly)
    (sample : String → Nat → SampleResult)
    (hv : ∀ c ∈ cands, CandValid c)
    (hknown : cands = [] ∨
      ∀ i ∈ cands.filterMap S2Feature.sysIndex,
        (loadHistory histFile).date_to_index.lookup (dateOf i) ≠
          Option.none) :
    runScript histFile cands fields sample = ⟨0, []⟩ := by
  rcases hknown with rfl | hknown
  · exact runScript_noop _ _ _ _ rfl
  · refine runScript_noop _ _ _ _ ?_
    rw [List.eq_nil_iff_forall_not_mem]
    intro d hd
    rw [computeDelta_mem] at hd
    obtain ⟨hnone, c, hc, i, hi, rfl⟩ := hd
    exact hknown i (List.mem_filterMap.mpr ⟨c, hc, hi⟩) hnone

/-- C4 witness: one candidate whose date is already in the history. -/
theorem claim4_witness :
    (∀ c ∈ ([⟨Option.some "20250310T111222"⟩] : List S2Feature),
      CandValid c) ∧
    (∀ i ∈ ([⟨Option.some "20250310T111222"⟩] : List S2Feature).filterMap
        S2Feature.sysIndex,
      (loadHistory (Option.some ⟨["2025-03-10"],
          [("2025-03-10", "20250310T000000")], [("2025-03-10", 5)]⟩)
        ).date_to_index.lookup (dateOf i) ≠ Option.none) ∧
    runScript (Option.some ⟨["2025-03-10"],
        [("2025-03-10", "20250310T000000")], [("2025-03-10", 5)]⟩)
      [⟨Option.some "20250310T111222"⟩] [] (fun _ _ => SampleResult.err) =
      ⟨0, []⟩ :=
  ⟨by decide, by decide,
   claim4_noop_run_preserves_state _ _ _ _ (by decide)
     (Or.inr (by decide))⟩

/-- C2: when several candidates map to the same calendar date, exactly one
entry for that date ends up in the written history — in `dates`, and among
the keys of `date_to_index` — and the index recorded for it is the
first-seen one; the later duplicates are ignored. -/
theorem claim2_dedup_first_seen_wins (histFile : Option History)
    (cands : List S2Feature) (fields : List FieldPoly)
    (sample : String → Nat → SampleResult)
    (hv : ∀ c ∈ cands, CandValid c) (hWF : WF (loadHistory histFile))
    (d i₁ : String)
    (hfirst : findFirstIdx cands d = Option.some i₁)
    (hnew : (loadHistory histFile).date_to_index.lookup d = Option.none)
    (hdup : ∃ i₂ ∈ cands.filterMap S2Feature.sysIndex,
      dateOf i₂ = d ∧ i₂ ≠ i₁) :
    ∃ h2, FileEvent.writeHistoryFile h2 ∈
        (runScript histFile cands fields sample).trace ∧
      h2.date_to_index.lookup d = Option.some i₁ ∧
      (h2.date_to_index.map Prod.fst).count d = 1 ∧
      h2.dates.count d = 1 := by
  have hp1 : dateOf i₁ = d := by
    have := List.find?_some hfirst
    simpa using this
  have hp2 : ∃ c ∈ cands, ∃ i, c.sysIndex = Option.some i ∧ dateOf i = d := by
    obtain ⟨c, hc, hi⟩ :=
      List.mem_filterMap.mp (List.mem_of_find?_eq_some hfirst)
    exact ⟨c, hc, i₁, hi, hp1⟩
  have hdmem : d ∈ (computeDelta (loadHistory histFile) cands).2 :=
    (computeDelta_mem _ _ d).mpr ⟨hnew, hp2⟩
  have hne : (computeDelta (loadHistory histFile) cands).2 ≠ [] :=
    List.ne_nil_of_mem hdmem
  refine ⟨(processDates fields sample
      ((computeDelta (loadHistory histFile) cands).2.getLast?.getD "")
      (computeDelta (loadHistory histFile) cands).1
      (computeDelta (loadHistory histFile) cands).2).1, ?_, ?_, ?_, ?_⟩
  · rw [runScript_full_trace _ _ _ _ hne]
    simp
  · rw [processDates_d2i, computeDelta_fst, deltaLoop_lookup, hnew, none_or,
      hfirst]
  · rw [processDates_d2i, computeDelta_fst, deltaLoop_keys,
      List.count_append]
    have hz : ((loadHistory histFile).date_to_index.map Prod.fst).count d =
        0 := by
      rw [List.count_eq_zero]
      exact (lookup_eq_none_iff _ _).mp hnew
    have ho : (deltaLoop (loadHistory histFile) cands).2.count d = 1 :=
      List.count_eq_one_of_mem (deltaLoop_nodup _ _)
        ((computeDelta_perm _ _).subset hdmem)
    rw [hz, ho]
  · rw [processDates_dates, computeDelta_fst, deltaLoop_dates,
      List.count_append]
    have hz : (loadHistory histFile).dates.count d = 0 := by
      rw [List.count_eq_zero]
      exact WF_not_mem_dates hWF hnew
    have ho : (computeDelta (loadHistory histFile) cands).2.count d = 1 :=
      List.count_eq_one_of_mem (computeDelta_nodup _ _) hdmem
    rw [hz, ho]

/-- C2 witness: two candidates with the same date and distinct indices
against an empty history. -/
theorem claim2_witness :
    (∀ c ∈ ([⟨Option.some "20250310T000000"⟩,
        ⟨Option.some "20250310T111111"⟩] : List S2Feature), CandValid c) ∧
    WF (loadHistory Option.none) ∧
    findFirstIdx [⟨Option.some "20250310T000000"⟩,
        ⟨Option.some "20250310T111111"⟩] "2025-03-10" =
      Option.some "20250310T000000" ∧
    (∃ h2, FileEvent.writeHistoryFile h2 ∈
        (runScript Option.none [⟨Option.some "20250310T000000"⟩,
          ⟨Option.some "20250310T111111"⟩] []
          (fun _ _ => SampleResult.err)).trace ∧
      h2.date_to_index.lookup "2025-03-10" =
        Option.some "20250310T000000" ∧
      (h2.date_to_index.map Prod.fst).count "2025-03-10" = 1 ∧
      h2.dates.count "2025-03-10" = 1) :=
  ⟨by decide, by decide, by decide,
   claim2_dedup_first_seen_wins Option.none _ [] _ (by decide) (by decide)
     "2025-03-10" "20250310T000000" (by decide) (by decide)
     ⟨"20250310T111111", by decide, by decide, by decide⟩⟩

/-- C10: for every date processed this run, the recorded `pixel_counts`
entry is the sum, over the fields, of each field's pixel contribution: the
number of LAI sample features when the field is a `Polygon` and both sample
responses carry a `features` key, and zero when the field is skipped, the
sampling raised, or a `features` key is missing.  By construction of
`fieldPixelContribution`, NDVI features are never counted and LAI features
later skipped during rendering (missing geometry or properties) are still
counted. -/
theorem claim10_pixel_count_formula (histFile : Option History)
    (cands : List S2Feature) (fields : List FieldPoly)
    (sample : String → Nat → SampleResult)
    (hv : ∀ c ∈ cands, CandValid c) (hWF : WF (loadHistory histFile)) :
    ∀ h2, FileEvent.writeHistoryFile h2 ∈
        (runScript histFile cands fields sample).trace →
      ∀ d ∈ h2.dates, d ∉ (loadHistory histFile).dates →
        h2.pixel_counts.lookup d =
          Option.some (fieldPixelTotal (sample d) 0 fields) := by
  intro h2 hmem d hd hdnot
  by_cases hne : (computeDelta (loadHistory histFile) cands).2 = []
  · rw [runScript_noop _ _ _ _ hne] at hmem
    simp at hmem
  · rw [runScript_full_trace _ _ _ _ hne] at hmem
    simp only [List.mem_cons, List.not_mem_nil, or_false] at hmem
    rcases hmem with h | h | h | h
    · exact FileEvent.noConfusion h
    · exact FileEvent.noConfusion h
    · injection h with hh
      subst hh
      have hfin := run_final_history histFile cands fields sample
        ((computeDelta (loadHistory histFile) cands).2.getLast?.getD "") hWF
      have hdates : (processDates fields sample
          ((computeDelta (loadHistory histFile) cands).2.getLast?.getD "")
          (computeDelta (loadHistory histFile) cands).1
          (computeDelta (loadHistory histFile) cands).2).1.dates =
          (loadHistory histFile).dates ++
            (computeDelta (loadHistory histFile) cands).2 := by
        rw [hfin]
      have hpc : (processDates fields sample
          ((computeDelta (loadHistory histFile) cands).2.getLast?.getD "")
          (computeDelta (loadHistory histFile) cands).1
          (computeDelta (loadHistory histFile) cands).2).1.pixel_counts =
          (loadHistory histFile).pixel_counts ++
            (computeDelta (loadHistory histFile) cands).2.map
              (fun dd => (dd, fieldPixelTotal (sample dd) 0 fields)) := by
        rw [hfin]
      rw [hdates] at hd
      have hdnd : d ∈ (computeDelta (loadHistory histFile) cands).2 := by
        rcases List.mem_append.mp hd with h0 | h0
        · exact absurd h0 hdnot
        · exact h0
      rw [hpc, lookup_append, WF_pc_lookup_none hWF hdnot, none_or,
        lookup_map_pairs, if_pos hdnd]
    · exact FileEvent.noConfusion h

/-- C10 witness: one new date, one polygon field whose LAI response has two
features (one of them without geometry, still counted) and an NDVI response
with three features (never counted). -/
theorem claim10_witness :
    (∀ c ∈ ([⟨Option.some "20250310T000000"⟩] : List S2Feature),
      CandValid c) ∧
    WF (loadHistory Option.none) ∧
    (∀ h2, FileEvent.writeHistoryFile h2 ∈
        (runScript Option.none [⟨Option.some "20250310T000000"⟩]
          [⟨"Polygon", [(0, 0)]⟩]
          (fun _ _ => SampleResult.ok
            (Option.some [⟨Option.some (1, 2), Option.some (.val 1)⟩,
              ⟨Option.none, Option.some (.val 2)⟩])
            (Option.some [⟨Option.some (1, 2), Option.some (.val 1)⟩,
              ⟨Option.some (3, 4), Option.some (.val 1)⟩,
              ⟨Option.some (5, 6), Option.some (.val 1)⟩]))).trace →
      ∀ d ∈ h2.dates, d ∉ (loadHistory Option.none).dates →
        h2.pixel_counts.lookup d =
          Option.some (fieldPixelTotal
            ((fun (_ : String) (_ : Nat) => SampleResult.ok
              (Option.some [⟨Option.some (1, 2), Option.some (.val 1)⟩,
                ⟨Option.none, Option.some (.val 2)⟩])
              (Option.some [⟨Option.some (1, 2), Option.some (.val 1)⟩,
                ⟨Option.some (3, 4), Option.some (.val 1)⟩,
                ⟨Option.some (5, 6), Option.some (.val 1)⟩])) d)
            0 [⟨"Polygon", [(0, 0)]⟩])) ∧
    fieldPixelTotal
      ((fun (_ : String) (_ : Nat) => SampleResult.ok
        (Option.some [⟨Option.some (1, 2), Option.some (.val 1)⟩,
          ⟨Option.none, Option.some (.val 2)⟩])
        (Option.some [⟨Option.some (1, 2), Option.some (.val 1)⟩,
          ⟨Option.some (3, 4), Option.some (.val 1)⟩,
          ⟨Option.some (5, 6), Option.some (.val 1)⟩])) "2025-03-10")
      0 [⟨"Polygon", [(0, 0)]⟩] = 2 :=
  ⟨by decide, by decide,
   claim10_pixel_count_formula Option.none _ _ _ (by decide) (by decide),
   by decide⟩

/-- C7: in a run with a non-empty delta, the trace is exactly the two map
writes, then the history write, then the marker write — so the marker is
written only after the history save — and the marker holds a single
`YYYY-MM-DD` date which is one of this run's newly processed dates and the
maximum of them by calendar date. -/
theorem claim7_marker_after_history_holds_max (histFile : Option History)
    (cands : List S2Feature) (fields : List FieldPoly)
    (sample : String → Nat → SampleResult)
    (hv : ∀ c ∈ cands, CandValid c) (hWF : WF (loadHistory histFile))
    (hne : (computeDelta (loadHistory histFile) cands).2 ≠ []) :
    ∃ A B h2 m,
      (runScript histFile cands fields sample).trace =
        [FileEvent.writeLaiMap A, FileEvent.writeNdviMap B,
         FileEvent.writeHistoryFile h2, FileEvent.writeMarker m] ∧
      isIsoDate m = true ∧
      m ∈ h2.dates ∧
      m ∉ (loadHistory histFile).dates ∧
      (∀ d ∈ h2.dates, d ∉ (loadHistory histFile).dates →
        dateVal d ≤ dateVal m) := by
  have hmeq : (computeDelta (loadHistory histFile) cands).2.getLast?.getD ""
      = (computeDelta (loadHistory histFile) cands).2.getLast hne := by
    rw [List.getLast?_eq_getLast _ hne]
    rfl
  have hmmem : (computeDelta (loadHistory histFile) cands).2.getLast?.getD ""
      ∈ (computeDelta (loadHistory histFile) cands).2 := by
    rw [hmeq]
    exact List.getLast_mem hne
  have hfin := run_final_history histFile cands fields sample
    ((computeDelta (loadHistory histFile) cands).2.getLast?.getD "") hWF
  have hdates : (processDates fields sample
      ((computeDelta (loadHistory histFile) cands).2.getLast?.getD "")
      (computeDelta (loadHistory histFile) cands).1
      (computeDelta (loadHistory histFile) cands).2).1.dates =
      (loadHistory histFile).dates ++
        (computeDelta (loadHistory histFile) cands).2 := by
    rw [hfin]
  have hmnotold : (computeDelta (loadHistory histFile) cands).2.getLast?.getD ""
      ∉ (loadHistory histFile).dates :=
    WF_not_mem_dates hWF ((computeDelta_mem _ _ _).mp hmmem).1
  refine ⟨_, _, _, _, runScript_full_trace _ _ _ _ hne,
    computeDelta_mem_iso hv hmmem, ?_, hmnotold, ?_⟩
  · rw [hdates]
    exact List.mem_append.mpr (Or.inr hmmem)
  · intro d hd hdnot
    rw [hdates] at hd
    have hdnd : d ∈ (computeDelta (loadHistory histFile) cands).2 := by
      rcases List.mem_append.mp hd with h0 | h0
      · exact absurd h0 hdnot
      · exact h0
    have hle : StrLe d
        ((computeDelta (loadHistory histFile) cands).2.getLast?.getD "") := by
      rw [hmeq]
      exact sorted_le_getLast _ (computeDelta_sorted _ _) hne d hdnd
    exact dateVal_mono (computeDelta_mem_iso hv hdnd)
      (computeDelta_mem_iso hv hmmem) hle

/-- C7 witness: the spec's scenario — empty history, a single candidate
dated 2025-03-10 — where the marker written is exactly `2025-03-10`, as the
last entry of the trace. -/
theorem claim7_witness :
    (∀ c ∈ ([⟨Option.some "20250310T000000"⟩] : List S2Feature),
      CandValid c) ∧
    WF (loadHistory Option.none) ∧
    (computeDelta (loadHistory Option.none)
      [⟨Option.some "20250310T000000"⟩]).2 ≠ [] ∧
    (∃ A B h2 m,
      (runScript Option.none [⟨Option.some "20250310T000000"⟩] []
        (fun _ _ => SampleResult.err)).trace =
        [FileEvent.writeLaiMap A, FileEvent.writeNdviMap B,
         FileEvent.writeHistoryFile h2, FileEvent.writeMarker m] ∧
      isIsoDate m = true ∧
      m ∈ h2.dates ∧
      m ∉ (loadHistory Option.none).dates ∧
      (∀ d ∈ h2.dates, d ∉ (loadHistory Option.none).dates →
        dateVal d ≤ dateVal m)) ∧
    FileEvent.writeMarker "2025-03-10" ∈
      (runScript Option.none [⟨Option.some "20250310T000000"⟩] []
        (fun _ _ => SampleResult.err)).trace :=
  ⟨by decide, by decide, by decide,
   claim7_marker_after_history_holds_max Option.none _ [] _ (by decide)
     (by decide) (by decide),
   by decide⟩

theorem or_isSome_right {α : Type} (a : Option α) (v : α) :
    (a.or (Option.some v)).isSome = true := by
  cases a <;> rfl

/-- C5: every run preserves the history invariant.  If the run writes a
history, its date set extends the loaded one; every previously recorded
date keeps its exact `date_to_index` and `pixel_counts` entries; and the
written history is again well-formed — `dates`, the `date_to_index` keys
and the `pixel_counts` keys are mutually equal as sets with no duplicates
(assuming the loaded history was well-formed).  A run that writes nothing
leaves the persisted history untouched. -/
theorem claim5_history_invariant_preserved (histFile : Option History)
    (cands : List S2Feature) (fields : List FieldPoly)
    (sample : String → Nat → SampleResult)
    (hv : ∀ c ∈ cands, CandValid c) (hWF : WF (loadHistory histFile)) :
    ∀ h2, FileEvent.writeHistoryFile h2 ∈
        (runScript histFile cands fields sample).trace →
      (∀ d ∈ (loadHistory histFile).dates, d ∈ h2.dates) ∧
      (∀ d i, (loadHistory histFile).date_to_index.lookup d =
          Option.some i →
        h2.date_to_index.lookup d = Option.some i) ∧
      (∀ d n, (loadHistory histFile).pixel_counts.lookup d =
          Option.some n →
        h2.pixel_counts.lookup d = Option.some n) ∧
      WF h2 := by
  intro h2 hmem
  by_cases hne : (computeDelta (loadHistory histFile) cands).2 = []
  · rw [runScript_noop _ _ _ _ hne] at hmem
    simp at hmem
  · rw [runScript_full_trace _ _ _ _ hne] at hmem
    simp only [List.mem_cons, List.not_mem_nil, or_false] at hmem
    rcases hmem with h | h | hmain | h
    · exact FileEvent.noConfusion h
    · exact FileEvent.noConfusion h
    case neg.inr.inr.inr => exact FileEvent.noConfusion h
    injection hmain with hh
    subst hh
    have hfin := run_final_history histFile cands fields sample
      ((computeDelta (loadHistory histFile) cands).2.getLast?.getD "") hWF
    have hdates : (processDates fields sample
        ((computeDelta (loadHistory histFile) cands).2.getLast?.getD "")
        (computeDelta (loadHistory histFile) cands).1
        (computeDelta (loadHistory histFile) cands).2).1.dates =
        (loadHistory histFile).dates ++
          (computeDelta (loadHistory histFile) cands).2 := by
      rw [hfin]
    have hd2i : (processDates fields sample
        ((computeDelta (loadHistory histFile) cands).2.getLast?.getD "")
        (computeDelta (loadHistory histFile) cands).1
        (computeDelta (loadHistory histFile) cands).2).1.date_to_index =
        (computeDelta (loadHistory histFile) cands).1.date_to_index := by
      rw [hfin]
    have hpc : (processDates fields sample
        ((computeDelta (loadHistory histFile) cands).2.getLast?.getD "")
        (computeDelta (loadHistory histFile) cands).1
        (computeDelta (loadHistory histFile) cands).2).1.pixel_counts =
        (loadHistory histFile).pixel_counts ++
          (computeDelta (loadHistory histFile) cands).2.map
            (fun dd => (dd, fieldPixelTotal (sample dd) 0 fields)) := by
      rw [hfin]
    have hF1 : ∀ d ∈ (computeDelta (loadHistory histFile) cands).2,
        (loadHistory histFile).date_to_index.lookup d = Option.none :=
      fun d hd => ((computeDelta_mem _ _ d).mp hd).1
    have hF2 : ∀ d ∈ (computeDelta (loadHistory histFile) cands).2,
        d ∉ (loadHistory histFile).dates :=
      fun d hd => WF_not_mem_dates hWF (hF1 d hd)
    have hFpre : ∀ d ∈ (deltaLoop (loadHistory histFile) cands).2,
        d ∈ (computeDelta (loadHistory histFile) cands).2 :=
      fun d hd => (computeDelta_perm _ _).mem_iff.mpr hd
    refine ⟨?_, ?_, ?_, ?_, ?_, ?_, ?_, ?_, ?_⟩
    · -- date set is extended
      intro d hd
      rw [hdates]
      exact List.mem_append.mpr (Or.inl hd)
    · -- old date_to_index entries preserved
      intro d i hi
      rw [hd2i, computeDelta_fst, deltaLoop_lookup]
      exact or_some_left hi _
    · -- old pixel_counts entries preserved
      intro d n hn
      rw [hpc, lookup_append]
      exact or_some_left hn _
    · -- dates without duplicates
      rw [hdates]
      exact List.Nodup.append hWF.1 (computeDelta_nodup _ _)
        (fun a ha hand => hF2 a hand ha)
    · -- date_to_index keys without duplicates
      rw [hd2i, computeDelta_fst, deltaLoop_keys]
      refine List.Nodup.append hWF.2.1 (deltaLoop_nodup _ _) ?_
      intro a ha hand
      have := ((deltaLoop_mem _ _ a).mp hand).1
      exact (lookup_eq_none_iff _ _).mp this ha
    · -- pixel_counts keys without duplicates
      rw [hpc, List.map_append, List.map_map]
      have hid : (Prod.fst ∘ fun dd =>
          (dd, fieldPixelTotal (sample dd) 0 fields)) = id := rfl
      rw [hid, List.map_id]
      refine List.Nodup.append hWF.2.2.1 (computeDelta_nodup _ _) ?_
      intro a ha hand
      obtain ⟨p, hp, rfl⟩ := List.mem_map.mp ha
      exact hF2 p.1 hand (hWF.2.2.2.2.2 p hp)
    · -- every recorded date has entries in both dictionaries
      intro d hd
      rw [hdates] at hd
      rcases List.mem_append.mp hd with hold | hnew
      · constructor
        · rw [hd2i, computeDelta_fst, deltaLoop_lookup]
          exact or_isSome_left (hWF.2.2.2.1 d hold).1 _
        · rw [hpc, lookup_append]
          exact or_isSome_left (hWF.2.2.2.1 d hold).2 _
      · constructor
        · rw [hd2i, computeDelta_fst, deltaLoop_lookup, hF1 d hnew, none_or]
          have hfs : findFirstIdx cands d ≠ Option.none :=
            findFirstIdx_ne_none ((computeDelta_mem _ _ d).mp hnew).2
          exact Option.ne_none_iff_isSome.mp hfs
        · rw [hpc, lookup_append, lookup_map_pairs, if_pos hnew]
          exact or_isSome_right _ _
    · -- date_to_index keys are recorded dates
      intro p hp
      have hk : p.1 ∈ (processDates fields sample
          ((computeDelta (loadHistory histFile) cands).2.getLast?.getD "")
          (computeDelta (loadHistory histFile) cands).1
          (computeDelta (loadHistory histFile) cands).2).1.date_to_index.map
            Prod.fst :=
        List.mem_map_of_mem Prod.fst hp
      rw [hd2i, computeDelta_fst, deltaLoop_keys] at hk
      rw [hdates]
      rcases List.mem_append.mp hk with hold | hnew
      · exact List.mem_append.mpr (Or.inl (WF_d2i_keys_sub hWF hold))
      · exact List.mem_append.mpr (Or.inr (hFpre _ hnew))
    · -- pixel_counts keys are recorded dates
      intro p hp
      rw [hpc] at hp
      rw [hdates]
      rcases List.mem_append.mp hp with hold | hnew
      · exact List.mem_append.mpr (Or.inl (hWF.2.2.2.2.2 p hold))
      · obtain ⟨dd, hdd, rfl⟩ := List.mem_map.mp hnew
        exact List.mem_append.mpr (Or.inr hdd)

/-- C5 witness: a run that appends one new date to a one-date history. -/
theorem claim5_witness :
    (∀ c ∈ ([⟨Option.some "20250317T000000"⟩] : List S2Feature),
      CandValid c) ∧
    WF (loadHistory (Option.some ⟨["2025-03-10"],
        [("2025-03-10", "20250310T000000")], [("2025-03-10", 5)]⟩)) ∧
    (∀ h2, FileEvent.writeHistoryFile h2 ∈
        (runScript (Option.some ⟨["2025-03-10"],
            [("2025-03-10", "20250310T000000")], [("2025-03-10", 5)]⟩)
          [⟨Option.some "20250317T000000"⟩] []
          (fun _ _ => SampleResult.err)).trace →
      (∀ d ∈ (loadHistory (Option.some ⟨["2025-03-10"],
          [("2025-03-10", "20250310T000000")], [("2025-03-10", 5)]⟩)).dates,
        d ∈ h2.dates) ∧
      (∀ d i, (loadHistory (Option.some ⟨["2025-03-10"],
          [("2025-03-10", "20250310T000000")],
          [("2025-03-10", 5)]⟩)).date_to_index.lookup d = Option.some i →
        h2.date_to_index.lookup d = Option.some i) ∧
      (∀ d n, (loadHistory (Option.some ⟨["2025-03-10"],
          [("2025-03-10", "20250310T000000")],
          [("2025-03-10", 5)]⟩)).pixel_counts.lookup d = Option.some n →
        h2.pixel_counts.lookup d = Option.some n) ∧
      WF h2) :=
  ⟨by decide, by decide,
   claim5_history_invariant_preserved _ _ _ _ (by decide) (by decide)⟩

theorem string_append_cancel_left {p a b : String} (h : p ++ a = p ++ b) :
    a = b := by
  apply String.ext
  have hd : p.data ++ a.data = p.data ++ b.data := congrArg String.data h
  exact List.append_cancel_left hd

/-- The modified oracle agrees with the original on every other date. -/
theorem omitOracle_other {sample : String → Nat → SampleResult} {d : String}
    {j : Nat} {r : SampleResult} {e : String} (he : e ≠ d) (j' : Nat) :
    omitOracle sample d j r e j' = sample e j' := by
  unfold omitOracle
  rw [if_neg]
  rintro ⟨rfl, -⟩
  exact he rfl

/-- On the failing date the modified oracle is the original with position
`j` replaced. -/
theorem omitOracle_at {sample : String → Nat → SampleResult} {d : String}
    {j : Nat} {r : SampleResult} (j' : Nat) :
    omitOracle sample d j r d j' = if j' = j then r else sample d j' := by
  unfold omitOracle
  by_cases hj : j' = j
  · rw [if_pos ⟨rfl, hj⟩, if_pos hj]
  · rw [if_neg, if_neg hj]
    rintro ⟨-, hj'⟩
    exact hj hj'


/-- C9: one failing sampling outcome — an exception or a `features`-less
response for one (date, field position) pair — never aborts the run and is
isolated: the run still exits 0 with the same trace shape; the written
history records the same dates and the same `date_to_index`; every other
date's pixel count is unchanged, while the failing date's count is the sum
over the remaining fields only; and in both output maps, every layer not
belonging to the failing date is identical to the unperturbed run's layer,
while the failing date's layer carries exactly the other fields'
contributions (plus the boundary outlines) — the failed field's
contribution is omitted. -/
theorem claim9_sampling_failure_isolated (histFile : Option History)
    (cands : List S2Feature) (fields : List FieldPoly)
    (sample : String → Nat → SampleResult)
    (hv : ∀ c ∈ cands, CandValid c) (hWF : WF (loadHistory histFile))
    (d : String) (j : Nat) (r : SampleResult)
    (hr : r = SampleResult.err ∨
      (∃ x, r = SampleResult.ok Option.none x) ∨
      (∃ x, r = SampleResult.ok x Option.none)) :
    (runScript histFile cands fields (omitOracle sample d j r)).exitCode =
      0 ∧
    (runScript histFile cands fields (omitOracle sample d j r)).trace.length
      = (runScript histFile cands fields sample).trace.length ∧
    (∀ h2', FileEvent.writeHistoryFile h2' ∈
        (runScript histFile cands fields (omitOracle sample d j r)).trace →
      ∃ h2, FileEvent.writeHistoryFile h2 ∈
          (runScript histFile cands fields sample).trace ∧
        h2'.dates = h2.dates ∧
        h2'.date_to_index = h2.date_to_index ∧
        (∀ e, e ≠ d → h2'.pixel_counts.lookup e =
          h2.pixel_counts.lookup e) ∧
        (d ∈ h2'.dates → d ∉ (loadHistory histFile).dates →
          h2'.pixel_counts.lookup d =
            Option.some (pixelTotalOmitting (sample d) j 0 fields))) ∧
    (∀ ls', FileEvent.writeLaiMap ls' ∈
        (runScript histFile cands fields (omitOracle sample d j r)).trace →
      ∀ L ∈ ls',
        (L.name ≠ "LAI_" ++ d →
          ∃ ls, FileEvent.writeLaiMap ls ∈
            (runScript histFile cands fields sample).trace ∧ L ∈ ls) ∧
        (L.name = "LAI_" ++ d →
          L.items = laiItemsOmitting (sample d) j 0 fields ++
            boundaryItems fields)) ∧
    (∀ ls', FileEvent.writeNdviMap ls' ∈
        (runScript histFile cands fields (omitOracle sample d j r)).trace →
      ∀ L ∈ ls',
        (L.name ≠ "NDVI_" ++ d →
          ∃ ls, FileEvent.writeNdviMap ls ∈
            (runScript histFile cands fields sample).trace ∧ L ∈ ls) ∧
        (L.name = "NDVI_" ++ d →
          L.items = ndviItemsOmitting (sample d) j 0 fields ++
            boundaryItems fields)) := by
  have hbad := bad_result_no_contribution hr
  refine ⟨runScript_exit _ _ _ _, ?_, ?_, ?_, ?_⟩
  · -- identical trace shape
    by_cases hne : (computeDelta (loadHistory histFile) cands).2 = []
    · rw [runScript_noop _ _ _ _ hne, runScript_noop _ _ _ _ hne]
    · rw [runScript_full_trace _ _ _ _ hne,
        runScript_full_trace _ _ _ _ hne]
      rfl
  · -- histories agree except the failing date's pixel count
    intro h2' hmem
    by_cases hne : (computeDelta (loadHistory histFile) cands).2 = []
    · rw [runScript_noop _ _ _ _ hne] at hmem
      simp at hmem
    · rw [runScript_full_trace _ _ _ _ hne] at hmem
      simp only [List.mem_cons, List.not_mem_nil, or_false] at hmem
      rcases hmem with h | h | hmain | h
      · exact FileEvent.noConfusion h
      · exact FileEvent.noConfusion h
      · injection hmain with hh
        subst hh
        refine ⟨(processDates fields sample
            ((computeDelta (loadHistory histFile) cands).2.getLast?.getD "")
            (computeDelta (loadHistory histFile) cands).1
            (computeDelta (loadHistory histFile) cands).2).1, ?_, ?_, ?_,
            ?_, ?_⟩
        · rw [runScript_full_trace _ _ _ _ hne]
          simp
        · rw [run_final_history _ _ _ _ _ hWF,
            run_final_history _ _ _ _ _ hWF]
        · rw [run_final_history _ _ _ _ _ hWF,
            run_final_history _ _ _ _ _ hWF]
        · intro e he
          rw [run_final_history _ _ _ _ _ hWF,
            run_final_history _ _ _ _ _ hWF]
          show ((loadHistory histFile).pixel_counts ++
              (computeDelta (loadHistory histFile) cands).2.map
                (fun dd => (dd, fieldPixelTotal
                  (omitOracle sample d j r dd) 0 fields))).lookup e =
            ((loadHistory histFile).pixel_counts ++
              (computeDelta (loadHistory histFile) cands).2.map
                (fun dd => (dd, fieldPixelTotal (sample dd) 0
                  fields))).lookup e
          rw [lookup_append, lookup_append, lookup_map_pairs,
            lookup_map_pairs]
          by_cases hend : e ∈ (computeDelta (loadHistory histFile) cands).2
          · rw [if_pos hend, if_pos hend,
              fieldPixelTotal_congr (omitOracle_other he) 0 fields]
          · rw [if_neg hend, if_neg hend]
        · intro hdmem hdnot
          rw [run_final_history _ _ _ _ _ hWF] at hdmem
          have hdmem' : d ∈ (loadHistory histFile).dates ++
              (computeDelta (loadHistory histFile) cands).2 := hdmem
          have hdnd : d ∈ (computeDelta (loadHistory histFile) cands).2 := by
            rcases List.mem_append.mp hdmem' with h0 | h0
            · exact absurd h0 hdnot
            · exact h0
          rw [run_final_history _ _ _ _ _ hWF]
          show ((loadHistory histFile).pixel_counts ++
              (computeDelta (loadHistory histFile) cands).2.map
                (fun dd => (dd, fieldPixelTotal
                  (omitOracle sample d j r dd) 0 fields))).lookup d =
            Option.some (pixelTotalOmitting (sample d) j 0 fields)
          rw [lookup_append, WF_pc_lookup_none hWF hdnot, none_or,
            lookup_map_pairs, if_pos hdnd,
            fieldPixelTotal_congr omitOracle_at 0 fields,
            fieldPixelTotal_omit (sample d) j r (fun f => (hbad f).2.2)
              0 fields]
      · exact FileEvent.noConfusion h
  · -- LAI layers
    intro ls' hmem
    by_cases hne : (computeDelta (loadHistory histFile) cands).2 = []
    · rw [runScript_noop _ _ _ _ hne] at hmem
      simp at hmem
    · rw [runScript_full_trace _ _ _ _ hne] at hmem
      simp only [List.mem_cons, List.not_mem_nil, or_false] at hmem
      rcases hmem with hmain | h | h | h
      · injection hmain with hh
        subst hh
        intro L hL
        rw [processDates_layers_lai] at hL
        obtain ⟨dd, hdd, rfl⟩ := List.mem_map.mp hL
        have hname : (processDate fields (omitOracle sample d j r dd) dd
            ((computeDelta (loadHistory histFile) cands).2.getLast?.getD
              "")).1.name = "LAI_" ++ dd := by
          rw [processDate_eq]
        constructor
        · intro hnne
          have hddne : dd ≠ d := by
            intro hdd0
            apply hnne
            rw [hname, hdd0]
          have hsame : processDate fields (omitOracle sample d j r dd) dd
              ((computeDelta (loadHistory histFile) cands).2.getLast?.getD
                "") = processDate fields (sample dd) dd
              ((computeDelta (loadHistory histFile) cands).2.getLast?.getD
                "") := by
            rw [processDate_eq, processDate_eq,
              fieldLaiItems_congr (omitOracle_other hddne) 0 fields,
              fieldNdviItems_congr (omitOracle_other hddne) 0 fields,
              fieldPixelTotal_congr (omitOracle_other hddne) 0 fields]
          refine ⟨(processDates fields sample
              ((computeDelta (loadHistory histFile) cands).2.getLast?.getD
                "")
              (computeDelta (loadHistory histFile) cands).1
              (computeDelta (loadHistory histFile) cands).2).2.1, ?_, ?_⟩
          · rw [runScript_full_trace _ _ _ _ hne]
            simp
          · rw [processDates_layers_lai]
            exact List.mem_map.mpr ⟨dd, hdd,
              (congrArg Prod.fst hsame).symm⟩
        · intro hnameq
          rw [hname] at hnameq
          have hdddd : dd = d := string_append_cancel_left hnameq
          rw [hdddd, processDate_eq]
          show fieldLaiItems (omitOracle sample d j r d) 0 fields ++
              boundaryItems fields = _
          rw [fieldLaiItems_congr omitOracle_at 0 fields,
            fieldLaiItems_omit (sample d) j r (fun f => (hbad f).1)
              0 fields]
      · exact FileEvent.noConfusion h
      · exact FileEvent.noConfusion h
      · exact FileEvent.noConfusion h
  · -- NDVI layers
    intro ls' hmem
    by_cases hne : (computeDelta (loadHistory histFile) cands).2 = []
    · rw [runScript_noop _ _ _ _ hne] at hmem
      simp at hmem
    · rw [runScript_full_trace _ _ _ _ hne] at hmem
      simp only [List.mem_cons, List.not_mem_nil, or_false] at hmem
      rcases hmem with h | hmain | h | h
      · exact FileEvent.noConfusion h
      · injection hmain with hh
        subst hh
        intro L hL
        rw [processDates_layers_ndvi] at hL
        obtain ⟨dd, hdd, rfl⟩ := List.mem_map.mp hL
        have hname : (processDate fields (omitOracle sample d j r dd) dd
            ((computeDelta (loadHistory histFile) cands).2.getLast?.getD
              "")).2.1.name = "NDVI_" ++ dd := by
          rw [processDate_eq]
        constructor
        · intro hnne
          have hddne : dd ≠ d := by
            intro hdd0
            apply hnne
            rw [hname, hdd0]
          have hsame : processDate fields (omitOracle sample d j r dd) dd
              ((computeDelta (loadHistory histFile) cands).2.getLast?.getD
                "") = processDate fields (sample dd) dd
              ((computeDelta (loadHistory histFile) cands).2.getLast?.getD
                "") := by
            rw [processDate_eq, processDate_eq,
              fieldLaiItems_congr (omitOracle_other hddne) 0 fields,
              fieldNdviItems_congr (omitOracle_other hddne) 0 fields,
              fieldPixelTotal_congr (omitOracle_other hddne) 0 fields]
          refine ⟨(processDates fields sample
              ((computeDelta (loadHistory histFile) cands).2.getLast?.getD
                "")
              (computeDelta (loadHistory histFile) cands).1
              (computeDelta (loadHistory histFile) cands).2).2.2, ?_, ?_⟩
          · rw [runScript_full_trace _ _ _ _ hne]
            simp
          · rw [processDates_layers_ndvi]
            refine List.mem_map.mpr ⟨dd, hdd, ?_⟩
            rw [hsame]
        · intro hnameq
          rw [hname] at hnameq
          have hdddd : dd = d := string_append_cancel_left hnameq
          rw [hdddd, processDate_eq]
          show fieldNdviItems (omitOracle sample d j r d) 0 fields ++
              boundaryItems fields = _
          rw [fieldNdviItems_congr omitOracle_at 0 fields,
            fieldNdviItems_omit (sample d) j r (fun f => (hbad f).2.1)
              0 fields]
      · exact FileEvent.noConfusion h
      · exact FileEvent.noConfusion h

/-- C9 witness: a single-field, single-date run in which that field's
sampling raises, applied to the isolation theorem. -/
theorem claim9_witness :
    (∀ c ∈ ([⟨Option.some "20250310T000000"⟩] : List S2Feature),
      CandValid c) ∧
    WF (loadHistory Option.none) ∧
    (runScript Option.none [⟨Option.some "20250310T000000"⟩]
        [⟨"Polygon", [(0, 0)]⟩]
        (omitOracle (fun _ _ => SampleResult.ok
            (Option.some [⟨Option.some (1, 2), Option.some (.val 1)⟩])
            (Option.some [⟨Option.some (1, 2), Option.some (.val 1)⟩]))
          "2025-03-10" 0 SampleResult.err)).exitCode = 0 ∧
    (runScript Option.none [⟨Option.some "20250310T000000"⟩]
        [⟨"Polygon", [(0, 0)]⟩]
        (omitOracle (fun _ _ => SampleResult.ok
            (Option.some [⟨Option.some (1, 2), Option.some (.val 1)⟩])
            (Option.some [⟨Option.some (1, 2), Option.some (.val 1)⟩]))
          "2025-03-10" 0 SampleResult.err)).trace.length =
      (runScript Option.none [⟨Option.some "20250310T000000"⟩]
        [⟨"Polygon", [(0, 0)]⟩]
        (fun _ _ => SampleResult.ok
          (Option.some [⟨Option.some (1, 2), Option.some (.val 1)⟩])
          (Option.some [⟨Option.some (1, 2),
            Option.some (.val 1)⟩]))).trace.length :=
  ⟨by decide, by decide,
   (claim9_sampling_failure_isolated Option.none
     [⟨Option.some "20250310T000000"⟩] [⟨"Polygon", [(0, 0)]⟩]
     (fun _ _ => SampleResult.ok
       (Option.some [⟨Option.some (1, 2), Option.some (.val 1)⟩])
       (Option.some [⟨Option.some (1, 2), Option.some (.val 1)⟩]))
     (by decide) (by decide) "2025-03-10" 0 SampleResult.err
     (Or.inl rfl)).1,
   (claim9_sampling_failure_isolated Option.none
     [⟨Option.some "20250310T000000"⟩] [⟨"Polygon", [(0, 0)]⟩]
     (fun _ _ => SampleResult.ok
       (Option.some [⟨Option.some (1, 2), Option.some (.val 1)⟩])
       (Option.some [⟨Option.some (1, 2), Option.some (.val 1)⟩]))
     (by decide) (by decide) "2025-03-10" 0 SampleResult.err
     (Or.inl rfl)).2.1⟩
